import Mathlib

/-!
# auto-format-staged: the staged-file pre-commit hook and its installer

A shallow embedding of `src/index.js` (the pre-commit hook script) and of
`bin/install.js` (the hook installer).

* Everything the hook reads from outside the process (child processes, the
  filesystem, `path`, `JSON.parse`) is a field of `Env`; every child process it
  starts and every console line it prints is recorded, in order, as an `Event`.
* A JavaScript exception that nothing catches is the result `none` of a
  function (or `Outcome.uncaught` for `main`).
* Values coming out of `JSON.parse` are untyped (`JSVal`); numbers are
  modelled as integers, which is what an ESLint report carries (counts,
  severities, lines, columns).
-/

namespace AutoFormatStaged

/-! ## JavaScript values -/

/-- Values that `JSON.parse` can produce, together with `undefined` (the value
of a missing property). An object is its list of own properties, each name
listed once. -/
inductive JSVal where
  | undefined : JSVal
  | null : JSVal
  | bool (b : Bool) : JSVal
  | num (n : Int) : JSVal
  | str (s : String) : JSVal
  | arr (items : List JSVal) : JSVal
  | obj (props : List (String × JSVal)) : JSVal

namespace JSVal

/-- Property read `v.key` on a value that is neither `null` nor `undefined`,
for the property names the hook uses (`errorCount`, `messages`, `filePath`,
`severity`, `line`, `column`, `message`, `ruleId`): none of them is defined on
a prototype, so only an object has them, as own properties. -/
def prop (v : JSVal) (key : String) : JSVal :=
  match v with
  | obj props => (props.lookup key).getD undefined
  | _ => undefined

/-- Property read `v.key`; `none` is the TypeError raised on `null` and
`undefined`. -/
def getProp (v : JSVal) (key : String) : Option JSVal :=
  match v with
  | undefined => none
  | null => none
  | _ => some (v.prop key)

/-- The receiver of `v.forEach(...)`: only an array has a callable `forEach`;
on anything else the call raises a TypeError (`none`). -/
def forEachItems (v : JSVal) : Option (List JSVal) :=
  match v with
  | arr items => some items
  | _ => none

/-- Strict equality with the number two, `v === 2`. -/
def isTwo (v : JSVal) : Bool :=
  match v with
  | num 2 => true
  | _ => false

/-- Truthiness of a value, as in `v ? a : b`. -/
def truthy (v : JSVal) : Bool :=
  match v with
  | undefined => false
  | null => false
  | bool b => b
  | num n => n != 0
  | str s => s != ""
  | arr _ => true
  | obj _ => true

end JSVal

/-- One entry of the `errors` array built by `runESLint`. -/
structure Finding where
  file : JSVal
  line : JSVal
  column : JSVal
  message : JSVal
  rule : JSVal

/-- The value returned by `runESLint`: `{ success, errors }`. -/
structure LintResult where
  success : Bool
  errors : List Finding

/-- The vacuous pass `{ success: true, errors: [] }`. -/
def LintResult.pass : LintResult := { success := true, errors := [] }

/-- Result of `spawnSync`: the exit status (`null` when the child was killed
or never started) and the captured standard output (`null` when not piped or
when the spawn failed). -/
structure SpawnResult where
  status : Option Int
  stdout : Option String

/-- What the hook observes of its environment. -/
structure Env where
  /-- Runs `execSync(cmd)`: the stdout of the command, `none` when it throws
  (non-zero exit, or the command could not be started). -/
  execSync : String → Option String
  /-- Runs `spawnSync(command, args, ...)`. -/
  spawnSync : String → List String → SpawnResult
  /-- Answers `fs.existsSync(p)`. -/
  existsSync : String → Bool
  /-- Computes `path.join(...)`. -/
  join : List String → String
  /-- States that `path.join` never returns the empty string (an empty result
  is returned as `"."`). -/
  join_ne_empty : ∀ parts, join parts ≠ ""
  /-- Computes `path.extname(file)`. -/
  extname : String → String
  /-- Computes `path.relative(from, to)`. -/
  relative : String → String → String
  /-- Holds `process.cwd()`. -/
  cwd : String
  /-- Holds `process.platform`. -/
  platform : String
  /-- Runs `JSON.parse(text)`: `none` when it throws a SyntaxError. -/
  jsonParse : String → Option JSVal
  /-- Holds `JSON.parse('[]')`, which is the empty array. -/
  jsonParse_empty : jsonParse "[]" = some (JSVal.arr [])
  /-- Decides `v > 0` for a string, array or object operand (ToPrimitive, then
  StringToNumber); `none` when the conversion raises a TypeError. -/
  coercedGtZero : JSVal → Option Bool
  /-- Converts an array or object interpolated in a template literal to its
  string; `none` when the conversion raises a TypeError. -/
  coercedToString : JSVal → Option String

/-- The comparison `v > 0`: `undefined` converts to NaN, `null` and `false` to
zero, `true` to one. -/
def gtZero (env : Env) (v : JSVal) : Option Bool :=
  match v with
  | JSVal.undefined => some false
  | JSVal.null => some false
  | JSVal.bool b => some b
  | JSVal.num n => some (decide (n > 0))
  | v => env.coercedGtZero v

/-! ## `runESLint`: reducing the report to findings -/

/-- The object pushed on `errors` for the message `msg` of the record `file`. -/
def toFinding (file msg : JSVal) : Finding :=
  { file := file.prop "filePath", line := msg.prop "line", column := msg.prop "column",
    message := msg.prop "message", rule := msg.prop "ruleId" }

/-- The inner loop `file.messages.forEach(msg => ...)` of `runESLint`: the
findings pushed for one file record, `none` when reading `msg.severity`
raises. -/
def messageFindings (file : JSVal) : List JSVal → Option (List Finding)
  | [] => some []
  | msg :: rest =>
    match msg.getProp "severity" with
    | none => none
    | some severity =>
      match messageFindings file rest with
      | none => none
      | some more => if severity.isTwo then some (toFinding file msg :: more) else some more

/-- The body of `output.forEach(file => ...)` for one element of the report:
nothing unless `file.errorCount > 0`. -/
def recordFindings (env : Env) (file : JSVal) : Option (List Finding) :=
  match file.getProp "errorCount" with
  | none => none
  | some count =>
    match gtZero env count with
    | none => none
    | some false => some []
    | some true =>
      match (file.prop "messages").forEachItems with
      | none => none
      | some msgs => messageFindings file msgs

/-- The outer loop `output.forEach(file => ...)`: all findings, in report
order, `none` when some iteration raises. -/
def reportFindings (env : Env) : List JSVal → Option (List Finding)
  | [] => some []
  | file :: rest =>
    match recordFindings env file with
    | none => none
    | some here =>
      match reportFindings env rest with
      | none => none
      | some more => some (here ++ more)

/-- The text handed to `JSON.parse`: `result.stdout || '[]'` (a `null` or
empty stdout is replaced by the empty report). -/
def stdoutText (stdout : Option String) : String :=
  match stdout with
  | some s => if s = "" then "[]" else s
  | none => "[]"

/-- The `try` block of `runESLint` after `JSON.parse`: the two loops and the
`return`; `none` when it throws. -/
def reduceReport (env : Env) (output : JSVal) : Option LintResult :=
  match output.forEachItems with
  | none => none
  | some files =>
    match reportFindings env files with
    | none => none
    | some errors => some { success := errors.length == 0, errors := errors }

/-- The `try` block of `runESLint`, from `JSON.parse(result.stdout || '[]')`
to the `return`; `none` when it throws (and the `catch` takes over). -/
def lintTry (env : Env) (stdout : Option String) : Option LintResult :=
  match env.jsonParse (stdoutText stdout) with
  | none => none
  | some output => reduceReport env output

/-! ## Effects -/

/-- What the hook does to the outside world, in program order. -/
inductive Event where
  /-- The call `execSync(cmd)` and whether it returned (`true`) or threw. -/
  | exec (cmd : String) (ok : Bool) : Event
  /-- The call `spawnSync(command, args, ...)`. -/
  | spawn (command : String) (args : List String) : Event
  /-- A line written by `console.log`. -/
  | log (line : String) : Event
  /-- A line written by `console.warn`. -/
  | warn (line : String) : Event
  /-- A line written by `console.error`. -/
  | error (line : String) : Event
  deriving DecidableEq

/-! ## String helpers of the JavaScript runtime -/

/-- Characters removed by `String.prototype.trim`: WhiteSpace and
LineTerminator code points. -/
def jsWhitespace (c : Char) : Bool :=
  let n := c.toNat
  n == 0x09 || n == 0x0A || n == 0x0B || n == 0x0C || n == 0x0D || n == 0x20 ||
  n == 0xA0 || n == 0x1680 || (0x2000 ≤ n && n ≤ 0x200A) || n == 0x2028 ||
  n == 0x2029 || n == 0x202F || n == 0x205F || n == 0x3000 || n == 0xFEFF

/-- Computes `s.trim()`. -/
def jsTrim (s : String) : String :=
  String.mk ((s.toList.dropWhile jsWhitespace).reverse.dropWhile jsWhitespace).reverse

/-- Splits a character list at every line feed; `cur` holds the reversed
characters of the piece being read. -/
def splitLinesAux : List Char → List Char → List String
  | [], cur => [String.mk cur.reverse]
  | c :: cs, cur =>
    if c = '\n' then String.mk cur.reverse :: splitLinesAux cs []
    else splitLinesAux cs (c :: cur)

/-- Computes `s.split('\n')`. -/
def jsSplitLines (s : String) : List String :=
  splitLinesAux s.toList []

/-! ## The hook script (`src/index.js`) -/

/-- The shape of the constant `SUPPORTED_EXTENSIONS`: the extensions each
tool handles. -/
structure SupportedExtensions where
  prettier : List String
  eslint : List String

/-- The constant `SUPPORTED_EXTENSIONS`. -/
def SUPPORTED_EXTENSIONS : SupportedExtensions :=
  { prettier := [".js", ".jsx", ".ts", ".tsx", ".json", ".css", ".scss", ".md", ".html",
                 ".yml", ".yaml"],
    eslint := [".js", ".jsx", ".ts", ".tsx", ".mjs", ".cjs"] }

/-- The command run by `getStagedFiles`. -/
def stagedCmd : String := "git diff --cached --name-only --diff-filter=ACM"

/-- The command run first by `detectTool`. -/
def toplevelCmd : String := "git rev-parse --show-toplevel"

/-- The command run first by `main`. -/
def gitDirCmd : String := "git rev-parse --git-dir"

/-- The command of one re-add, a template literal around the file name. -/
def gitAddCmd (file : String) : String := "git add \"" ++ file ++ "\""

/-- The function `getStagedFiles`: the non-empty lines of the trimmed output,
the empty list when the query throws. -/
def getStagedFiles (env : Env) : List String :=
  match env.execSync stagedCmd with
  | some output => (jsSplitLines (jsTrim output)).filter (fun l => l != "")
  | none => []

/-- The candidate files `detectTool` looks for under `node_modules/<tool>`,
in order. -/
def possiblePaths (env : Env) (nodeModulesPath toolName : String) : List String :=
  (if toolName = "prettier" then
    [env.join [nodeModulesPath, "bin", "prettier.cjs"],
     env.join [nodeModulesPath, "bin", "prettier.js"],
     env.join [nodeModulesPath, "bin-prettier.js"],
     env.join [nodeModulesPath, "index.js"]]
   else []) ++
  (if toolName = "eslint" then
    [env.join [nodeModulesPath, "bin", "eslint.js"],
     env.join [nodeModulesPath, "lib", "cli.js"]]
   else [])

/-- The command of the system-wide lookup in `detectTool`. -/
def whichCmd (env : Env) (toolName : String) : String :=
  (if env.platform = "win32" then "where" else "which") ++ " " ++ toolName

/-- The project-local part of `detectTool`: the first candidate that exists
when `node_modules/<tool>` exists. -/
def localTool (env : Env) (nodeModulesPath toolName : String) : Option String :=
  if env.existsSync nodeModulesPath then
    (possiblePaths env nodeModulesPath toolName).find? env.existsSync
  else none

/-- The function `detectTool`. The result is `none` when the unguarded
`git rev-parse --show-toplevel` throws, `some none` for `null` (tool not
found) and `some (some p)` for a located tool. -/
def detectTool (env : Env) (toolName : String) : List Event × Option (Option String) :=
  match env.execSync toplevelCmd with
  | none => ([Event.exec toplevelCmd false], none)
  | some out =>
    match localTool env (env.join [jsTrim out, "node_modules", toolName]) toolName with
    | some p => ([Event.exec toplevelCmd true], some (some p))
    | none =>
      match env.execSync (whichCmd env toolName) with
      | some _ =>
        ([Event.exec toplevelCmd true, Event.exec (whichCmd env toolName) true],
          some (some toolName))
      | none =>
        ([Event.exec toplevelCmd true, Event.exec (whichCmd env toolName) false],
          some none)

/-- The function `filterFilesByExtension`. -/
def filterFilesByExtension (env : Env) (files : List String) (extensions : List String) :
    List String :=
  files.filter (fun file => extensions.contains (env.extname file) && env.existsSync file)

/-- The arguments `runESLint` passes to `node`. -/
def eslintArgs (eslintPath : String) (files : List String) : List String :=
  [eslintPath, "--format", "json"] ++ files

/-- The function `runESLint`; `none` when an exception escapes it (only the
one of `detectTool`). The test `!eslintPath` holds for `null` and for the
empty string. -/
def runESLint (env : Env) (files : List String) : List Event × Option LintResult :=
  if files.length = 0 then ([], some LintResult.pass)
  else
    match detectTool env "eslint" with
    | (t, none) => (t, none)
    | (t, some none) =>
      (t ++ [Event.log "ℹ️  ESLint not found, skipping linting"], some LintResult.pass)
    | (t, some (some eslintPath)) =>
      if eslintPath = "" then
        (t ++ [Event.log "ℹ️  ESLint not found, skipping linting"], some LintResult.pass)
      else
        let result := env.spawnSync "node" (eslintArgs eslintPath files)
        let t1 := t ++ [Event.log "🔍 Linting staged files...",
                        Event.spawn "node" (eslintArgs eslintPath files)]
        match lintTry env result.stdout with
        | some r => (t1, some r)
        | none =>
          (t1 ++ [Event.warn "⚠️  Could not parse ESLint output, proceeding anyway"],
            some LintResult.pass)

/-- The arguments `runPrettier` passes to `npx` (the same in both branches of
its `if`). -/
def prettierArgs (files : List String) : List String :=
  ["prettier", "--write", "--ignore-unknown"] ++ files

/-- The loop `files.forEach(file => { try { execSync(git add) } catch {} })`. -/
def reAddFiles (env : Env) : List String → List Event
  | [] => []
  | file :: rest =>
    match env.execSync (gitAddCmd file) with
    | some _ => Event.exec (gitAddCmd file) true :: reAddFiles env rest
    | none => Event.exec (gitAddCmd file) false :: reAddFiles env rest

/-- The function `runPrettier`; `none` when an exception escapes it (only the
one of `detectTool`). The test `!prettierPath` holds for `null` and for the
empty string. -/
def runPrettier (env : Env) (files : List String) : List Event × Option Unit :=
  if files.length = 0 then ([], some ())
  else
    match detectTool env "prettier" with
    | (t, none) => (t, none)
    | (t, some none) =>
      (t ++ [Event.log "ℹ️  Prettier not found, skipping formatting"], some ())
    | (t, some (some prettierPath)) =>
      if prettierPath = "" then
        (t ++ [Event.log "ℹ️  Prettier not found, skipping formatting"], some ())
      else
        let result := env.spawnSync "npx" (prettierArgs files)
        let t1 := t ++ [Event.log "✨ Formatting staged files...",
                        Event.spawn "npx" (prettierArgs files)]
        if result.status = some 0 then (t1 ++ reAddFiles env files, some ())
        else (t1, some ())

/-- The string a value becomes inside a template literal; `none` when the
conversion raises. An integer is written in decimal (as JavaScript does below
ten to the twenty-first). -/
def interpolate (env : Env) (v : JSVal) : Option String :=
  match v with
  | JSVal.undefined => some "undefined"
  | JSVal.null => some "null"
  | JSVal.bool b => some (if b then "true" else "false")
  | JSVal.num n => some (toString n)
  | JSVal.str s => some s
  | v => env.coercedToString v

/-- The callback of `errors.forEach` in `printErrors` for one finding: the
lines it writes with `console.error`, and whether it ran to its end (`false`:
it raised, because `path.relative` rejects a `file` that is not a string or a
template literal could not convert its value; the first line may already be
written then). -/
def findingLines (env : Env) (err : Finding) : List Event × Bool :=
  match err.file with
  | JSVal.str file =>
    let relativePath := env.relative env.cwd file
    match interpolate env err.line, interpolate env err.column with
    | some line, some column =>
      let first := Event.error ("  " ++ relativePath ++ ":" ++ line ++ ":" ++ column)
      match interpolate env err.message with
      | some message =>
        if err.rule.truthy then
          match interpolate env err.rule with
          | some rule =>
            ([first, Event.error ("    " ++ message ++ " " ++ ("(" ++ rule ++ ")"))], true)
          | none => ([first], false)
        else ([first, Event.error ("    " ++ message ++ " " ++ "")], true)
      | none => ([first], false)
    | _, _ => ([], false)
  | _ => ([], false)

/-- The loop `errors.forEach(err => ...)` of `printErrors`: the lines written,
and whether the loop ran to its end (`false`: a callback raised and the loop
stopped there). -/
def printFindings (env : Env) : List Finding → List Event × Bool
  | [] => ([], true)
  | err :: rest =>
    match findingLines env err with
    | (lines, false) => (lines, false)
    | (lines, true) =>
      let r := printFindings env rest
      (lines ++ r.1, r.2)

/-- The summary line of `printErrors`. -/
def summaryLine (errors : List Finding) : String :=
  "\n" ++ toString errors.length ++ " error(s) found. Fix them before committing.\n"

/-- The function `printErrors`; the second component is `none` when an
exception escapes it. -/
def printErrors (env : Env) (errors : List Finding) : List Event × Option Unit :=
  match printFindings env errors with
  | (lines, true) =>
    ([Event.error "\n❌ Linting errors found:\n"] ++ lines ++
      [Event.error (summaryLine errors)], some ())
  | (lines, false) => ([Event.error "\n❌ Linting errors found:\n"] ++ lines, none)

/-- How the process of the hook ends. -/
inductive Outcome where
  /-- The call `process.exit(code)`. -/
  | exit (code : Nat) : Outcome
  /-- An exception nothing caught. -/
  | uncaught : Outcome
  deriving DecidableEq

/-- The exit status the parent process (git) sees: the argument of
`process.exit`, and 1 when Node terminates on an uncaught exception. -/
def Outcome.status : Outcome → Nat
  | Outcome.exit code => code
  | Outcome.uncaught => 1

/-- The end of `main`, from `if (formatFiles.length > 0)` on. -/
def formatPhase (env : Env) (formatFiles : List String) : List Event × Outcome :=
  if formatFiles.length > 0 then
    match runPrettier env formatFiles with
    | (t, none) => (t, Outcome.uncaught)
    | (t, some _) =>
      (t ++ [Event.log "✅ Formatting complete", Event.log "🎉 Ready to commit!\n"],
        Outcome.exit 0)
  else ([Event.log "🎉 Ready to commit!\n"], Outcome.exit 0)

/-- The part of `main` after the staged files were found non-empty: the two
filters, the lint phase and the format phase. -/
def lintAndFormat (env : Env) (stagedFiles : List String) : List Event × Outcome :=
  let lintFiles := filterFilesByExtension env stagedFiles SUPPORTED_EXTENSIONS.eslint
  let formatFiles := filterFilesByExtension env stagedFiles SUPPORTED_EXTENSIONS.prettier
  if lintFiles.length > 0 then
    match runESLint env lintFiles with
    | (t, none) => (t, Outcome.uncaught)
    | (t, some lintResult) =>
      if !lintResult.success then
        match printErrors env lintResult.errors with
        | (p, none) => (t ++ p, Outcome.uncaught)
        | (p, some _) => (t ++ p, Outcome.exit 1)
      else
        let r := formatPhase env formatFiles
        (t ++ [Event.log "✅ Linting passed"] ++ r.1, r.2)
  else formatPhase env formatFiles

/-- The function `main`. -/
def main (env : Env) : List Event × Outcome :=
  match env.execSync gitDirCmd with
  | none => ([Event.exec gitDirCmd false], Outcome.uncaught)
  | some out =>
    let gitDir := jsTrim out
    if env.existsSync (env.join [gitDir, "rebase-merge"]) ||
        env.existsSync (env.join [gitDir, "MERGE_HEAD"]) then
      ([Event.exec gitDirCmd true,
        Event.log "ℹ️  Rebase/merge in progress, skipping hooks"], Outcome.exit 0)
    else
      let stagedFiles := getStagedFiles env
      let t0 := [Event.exec gitDirCmd true,
                 Event.exec stagedCmd (env.execSync stagedCmd).isSome]
      if stagedFiles.length = 0 then
        (t0 ++ [Event.log "ℹ️  No staged files to process"], Outcome.exit 0)
      else
        let r := lintAndFormat env stagedFiles
        (t0 ++ r.1, r.2)

/-! ## The installer (`bin/install.js`) -/

/-- The constant `HOOK_SCRIPT`. -/
def HOOK_SCRIPT : String :=
  "#!/bin/sh\n# auto-format-staged hook\nnode ./node_modules/auto-format-staged/src/index.js\n"

/-- Whether `pat` starts the character list. -/
def startsWithChars : List Char → List Char → Bool
  | [], _ => true
  | _ :: _, [] => false
  | p :: ps, c :: cs => p == c && startsWithChars ps cs

/-- Whether `pat` occurs in the character list. -/
def includesChars (pat : List Char) : List Char → Bool
  | [] => startsWithChars pat []
  | c :: cs => startsWithChars pat (c :: cs) || includesChars pat cs

/-- Computes `s.includes(pat)`. -/
def jsIncludes (s pat : String) : Bool :=
  includesChars pat.toList s.toList

/-- The permission class under which the installing user accesses an entry:
as its owner, as a member of its group, or as anyone else. -/
inductive PermClass where
  | owner : PermClass
  | group : PermClass
  | other : PermClass
  deriving DecidableEq

/-- An entry of the filesystem: a regular file (text content, permission
bits, class of the installing user) or a directory (permission bits, class
of the installing user). -/
inductive FsNode where
  | file (content : String) (mode : Nat) (cls : PermClass) : FsNode
  | dir (mode : Nat) (cls : PermClass) : FsNode
  deriving DecidableEq

/-- The filesystem the installer works on: what is at each path. -/
abbrev FileSys := String → Option FsNode

/-- Whether the permission bits `mode` grant `bit` (4 to read, 2 to write,
1 to search a directory) to a user of class `cls`; the superuser is granted
everything. -/
def permits (root : Bool) (mode : Nat) (cls : PermClass) (bit : Nat) : Bool :=
  root ||
  (mode / (match cls with
    | PermClass.owner => 64
    | PermClass.group => 8
    | PermClass.other => 1) / bit) % 2 == 1

/-- Whether `parent` is a directory whose entries the user may look up. -/
def searchable (root : Bool) (fs : FileSys) (parent : String) : Bool :=
  match fs parent with
  | some (FsNode.dir mode cls) => permits root mode cls 1
  | _ => false

/-- Whether the user may create an entry in the directory `parent`. -/
def creatable (root : Bool) (fs : FileSys) (parent : String) : Bool :=
  match fs parent with
  | some (FsNode.dir mode cls) => permits root mode cls 1 && permits root mode cls 2
  | _ => false

/-- Answers `fs.existsSync(p)` for an entry `p` of the directory `parent`:
false when `parent` is not a directory that can be searched. -/
def fsExists (root : Bool) (fs : FileSys) (parent p : String) : Bool :=
  searchable root fs parent && (fs p).isSome

/-- Runs `fs.readFileSync(p, 'utf8')` for an entry of `parent`: `none` when it
throws (no such file, a directory, or no permission to read). -/
def fsRead (root : Bool) (fs : FileSys) (parent p : String) : Option String :=
  if searchable root fs parent then
    match fs p with
    | some (FsNode.file content mode cls) =>
      if permits root mode cls 4 then some content else none
    | _ => none
  else none

/-- Opens the entry `p` of `parent` for writing and stores `update old` in it,
where `old` is the previous content (`none` for a file that is created, with
the bits `createMode` and the user as owner): the resulting filesystem, or
`none` when the call throws (a directory, no permission to write the file, or
no permission to create it). A throwing call leaves the filesystem as it
was. -/
def fsWrite (root : Bool) (fs : FileSys) (parent p : String)
    (update : Option String → String) (createMode : Nat) : Option FileSys :=
  if searchable root fs parent then
    match fs p with
    | some (FsNode.file content mode cls) =>
      if permits root mode cls 2 then
        some (Function.update fs p (some (FsNode.file (update (some content)) mode cls)))
      else none
    | some (FsNode.dir _ _) => none
    | none =>
      if creatable root fs parent then
        some (Function.update fs p
          (some (FsNode.file (update none) createMode PermClass.owner)))
      else none
  else none

/-- Runs `fs.copyFileSync(src, dest)` between entries of `parent`: `dest` gets
the content and the permission bits of `src`; `none` when the call throws
(`src` cannot be read, `dest` is a directory, `dest` cannot be created, or
`dest` exists and the user may not write it or may not set its bits). -/
def fsCopy (root : Bool) (fs : FileSys) (parent src dest : String) : Option FileSys :=
  if searchable root fs parent then
    match fs src with
    | some (FsNode.file content mode cls) =>
      if permits root mode cls 4 then
        match fs dest with
        | some (FsNode.file _ destMode destCls) =>
          if permits root destMode destCls 2 && (root || destCls == PermClass.owner) then
            some (Function.update fs dest (some (FsNode.file content mode destCls)))
          else none
        | some (FsNode.dir _ _) => none
        | none =>
          if creatable root fs parent then
            some (Function.update fs dest (some (FsNode.file content mode PermClass.owner)))
          else none
      else none
    | _ => none
  else none

/-- Runs `fs.chmodSync(p, mode)` for an entry of `parent`: `none` when it
throws (no such entry, or the user is neither its owner nor the superuser). -/
def fsChmod (root : Bool) (fs : FileSys) (parent p : String) (mode : Nat) : Option FileSys :=
  if searchable root fs parent then
    match fs p with
    | some (FsNode.file content _ cls) =>
      if root || cls == PermClass.owner then
        some (Function.update fs p (some (FsNode.file content mode cls)))
      else none
    | some (FsNode.dir _ cls) =>
      if root || cls == PermClass.owner then
        some (Function.update fs p (some (FsNode.dir mode cls)))
      else none
    | none => none
  else none

/-- What the installer observes of its environment besides the filesystem. -/
structure InstallEnv where
  /-- Runs `execSync('git rev-parse --show-toplevel')`: `none` when it throws. -/
  gitToplevel : Option String
  /-- Computes `path.join(...)`. -/
  join : List String → String
  /-- Computes `path.basename(p)`. -/
  basename : String → String
  /-- Holds `Date.now()`. -/
  now : Nat
  /-- Gives the permission bits of a file created by `writeFileSync`. -/
  createMode : Nat
  /-- Tells whether the installer runs as the superuser. -/
  root : Bool

/-- How a run of `installHook` ends. -/
inductive InstallOutcome where
  /-- The function returned. -/
  | returned : InstallOutcome
  /-- The call `process.exit(code)`. -/
  | exit (code : Nat) : InstallOutcome
  /-- A filesystem call threw and nothing caught it. -/
  | uncaught : InstallOutcome
  deriving DecidableEq

/-- A run of `installHook`: what it printed and executed, how it ended, and
the filesystem it left. -/
structure InstallRun where
  trace : List Event
  outcome : InstallOutcome
  fs : FileSys

/-- The closing `console.log` calls of a successful installation. -/
def installedLines : List Event :=
  [Event.log "✅ Pre-commit hook installed successfully!",
   Event.log "\nNow when you commit:",
   Event.log "  • Staged files will be linted (errors block commit)",
   Event.log "  • Staged files will be formatted automatically",
   Event.log "  • Only changed files are processed\n"]

/-- The function `findGitRoot`: the trimmed output of the top-level query;
`none` when the query throws (the function then prints its error and calls
`process.exit(1)`). -/
def findGitRoot (e : InstallEnv) : Option String :=
  match e.gitToplevel with
  | some out => some (jsTrim out)
  | none => none

/-- The hooks directory of `installHook`. -/
def hooksDirOf (e : InstallEnv) (gitRoot : String) : String :=
  e.join [gitRoot, ".git", "hooks"]

/-- The hook file of `installHook`. -/
def hookPathOf (e : InstallEnv) (gitRoot : String) : String :=
  e.join [hooksDirOf e gitRoot, "pre-commit"]

/-- The backup file `installHook` copies a foreign hook to. -/
def backupPathOf (e : InstallEnv) (gitRoot : String) : String :=
  hookPathOf e gitRoot ++ ".backup-" ++ toString e.now

/-- The function `installHook`. File contents are text. None of its
filesystem calls is guarded: a call that throws ends the run there, with
what the earlier calls wrote left in place. -/
def installHook (e : InstallEnv) (fs : FileSys) : InstallRun :=
  let t0 := [Event.log "🔧 Installing auto-format-staged...\n"]
  match findGitRoot e with
  | none =>
    { trace := t0 ++ [Event.exec toplevelCmd false,
                      Event.error "❌ Error: Not a git repository"],
      outcome := InstallOutcome.exit 1, fs := fs }
  | some gitRoot =>
    let hooksDir := hooksDirOf e gitRoot
    let hookPath := hookPathOf e gitRoot
    let t1 := t0 ++ [Event.exec toplevelCmd true]
    if !(fs hooksDir).isSome then
      { trace := t1 ++ [Event.error "❌ Error: .git/hooks directory not found"],
        outcome := InstallOutcome.exit 1, fs := fs }
    else if fsExists e.root fs hooksDir hookPath then
      match fsRead e.root fs hooksDir hookPath with
      | none => { trace := t1, outcome := InstallOutcome.uncaught, fs := fs }
      | some existingHook =>
        if jsIncludes existingHook "auto-format-staged" then
          { trace := t1 ++ [Event.log "✅ Hook already installed!"],
            outcome := InstallOutcome.returned, fs := fs }
        else
          let backupPath := backupPathOf e gitRoot
          match fsCopy e.root fs hooksDir hookPath backupPath with
          | none => { trace := t1, outcome := InstallOutcome.uncaught, fs := fs }
          | some fs1 =>
            let t2 := t1 ++ [Event.log ("📦 Backed up existing hook to: " ++
                                        e.basename backupPath)]
            match fsWrite e.root fs1 hooksDir hookPath
                (fun old => old.getD "" ++ ("\n" ++ HOOK_SCRIPT)) e.createMode with
            | none => { trace := t2, outcome := InstallOutcome.uncaught, fs := fs1 }
            | some fs2 =>
              { trace := t2 ++ installedLines, outcome := InstallOutcome.returned,
                fs := fs2 }
    else
      match fsWrite e.root fs hooksDir hookPath (fun _ => HOOK_SCRIPT) e.createMode with
      | none => { trace := t1, outcome := InstallOutcome.uncaught, fs := fs }
      | some fs1 =>
        match fsChmod e.root fs1 hooksDir hookPath 0o755 with
        | none => { trace := t1, outcome := InstallOutcome.uncaught, fs := fs1 }
        | some fs2 =>
          { trace := t1 ++ installedLines, outcome := InstallOutcome.returned, fs := fs2 }

/-! ## The lint report as the specification describes it -/

/-- Whether a value is an object. -/
def JSVal.isObj (v : JSVal) : Bool :=
  match v with
  | JSVal.obj _ => true
  | _ => false

/-- Whether a value is `null` or `undefined`. -/
def JSVal.isNullish (v : JSVal) : Bool :=
  match v with
  | JSVal.undefined => true
  | JSVal.null => true
  | _ => false

/-- A lint finding as the data model of the specification has it: a file
path, a line, a column, a message and an optional rule identifier. -/
structure LintFinding where
  file_path : String
  line : Int
  column : Int
  message : String
  rule_identifier : Option String

/-- The entry of `errors` that carries a lint finding; a missing rule is
`null`, as in the reports of the lint tool. -/
def LintFinding.asEntry (x : LintFinding) : Finding :=
  { file := JSVal.str x.file_path, line := JSVal.num x.line, column := JSVal.num x.column,
    message := JSVal.str x.message,
    rule := match x.rule_identifier with
      | some rule => JSVal.str rule
      | none => JSVal.null }

/-- A per-file record of the lint report: an object with a string `filePath`,
a numeric `errorCount` and an array `messages` of message objects. -/
def isFileRecord (r : JSVal) : Bool :=
  r.isObj &&
  (match r.prop "filePath" with
    | JSVal.str _ => true
    | _ => false) &&
  (match r.prop "errorCount" with
    | JSVal.num _ => true
    | _ => false) &&
  (match r.prop "messages" with
    | JSVal.arr msgs => msgs.all JSVal.isObj
    | _ => false)

/-- A lint report that parses into per-file records: an array of them. -/
def isReport (v : JSVal) : Bool :=
  match v with
  | JSVal.arr records => records.all isFileRecord
  | _ => false

/-- The messages of a file record. -/
def messagesOf (r : JSVal) : List JSVal :=
  match r.prop "messages" with
  | JSVal.arr msgs => msgs
  | _ => []

/-- A message of error severity: `severity` is the number 2. -/
def isErrorMessage (msg : JSVal) : Bool :=
  (msg.prop "severity").isTwo

/-- The findings of one file record as the specification words them: every
message of error severity, tagged with file, line, column, message and rule. -/
def errorFindings (r : JSVal) : List Finding :=
  ((messagesOf r).filter isErrorMessage).map (toFinding r)

/-- The findings of a report as the specification words them: the
error-severity messages of all file records, in report order. -/
def specFindings (records : List JSVal) : List Finding :=
  (records.map errorFindings).flatten

/-- Whether the record's `errorCount` is a number above zero. -/
def hasErrorCount (r : JSVal) : Bool :=
  match r.prop "errorCount" with
  | JSVal.num n => decide (n > 0)
  | _ => false

/-- The error-severity messages of the file records whose `errorCount` is
above zero, in report order. -/
def countedFindings (records : List JSVal) : List Finding :=
  ((records.filter hasErrorCount).map errorFindings).flatten

/-- The property list with the value of property `name` replaced by `h` of
it. -/
def mapProp (name : String) (h : JSVal → JSVal) :
    List (String × JSVal) → List (String × JSVal)
  | [] => []
  | (k, v) :: rest => (k, if k = name then h v else v) :: mapProp name h rest

/-- An array of messages reduced to its error-severity entries. -/
def errorMessagesOnly (v : JSVal) : JSVal :=
  match v with
  | JSVal.arr msgs => JSVal.arr (msgs.filter isErrorMessage)
  | v => v

/-- A file record with its messages of non-error severity removed; every
other property is kept. -/
def keepErrors (r : JSVal) : JSVal :=
  match r with
  | JSVal.obj props => JSVal.obj (mapProp "messages" errorMessagesOnly props)
  | v => v

/-- Whether the body of `output.forEach` raises on the element `file`: the
element is `null`, the comparison `errorCount > 0` raises, or the count is
above zero and `messages` is not an array or holds a `null` entry. -/
def recordRaises (env : Env) (file : JSVal) : Bool :=
  file.isNullish ||
  match gtZero env (file.prop "errorCount") with
  | none => true
  | some false => false
  | some true =>
    match file.prop "messages" with
    | JSVal.arr msgs => msgs.any JSVal.isNullish
    | _ => true

/-- Whether the two loops of `runESLint` raise on the parsed value: it is not
an array, or the loop body raises on one of its elements. -/
def traversalRaises (env : Env) (output : JSVal) : Bool :=
  match output with
  | JSVal.arr files => files.any (recordRaises env)
  | _ => true

/-- Whether an event belongs to the format phase: the formatter process
(`npx ...`) or a re-add (`git add ...`). -/
def isFormatEvent (e : Event) : Bool :=
  match e with
  | Event.spawn command _ => command == "npx"
  | Event.exec cmd _ => startsWithChars "git add ".toList cmd.toList
  | _ => false

/-- Whether an event is a re-add (`git add ...`). -/
def isReAdd (e : Event) : Bool :=
  match e with
  | Event.exec cmd _ => startsWithChars "git add ".toList cmd.toList
  | _ => false

/-- Whether an event starts the lint tool (`node ...`). -/
def isLintEvent (e : Event) : Bool :=
  match e with
  | Event.spawn command _ => command == "node"
  | _ => false

/-- Whether an event is the staged-file query. -/
def isEnumeration (e : Event) : Bool :=
  match e with
  | Event.exec cmd _ => cmd == stagedCmd
  | _ => false

/-- The environment `env` with the exit status of every spawned process
replaced by `status`; nothing else changes. -/
def Env.withStatus (env : Env) (status : Option Int) : Env :=
  { env with spawnSync := fun command args =>
      { status := status, stdout := (env.spawnSync command args).stdout } }

/-! ## Sample environments and reports -/

/-- A sample `path.join`: the parts separated by slashes, `"."` when that is
empty. -/
def sampleJoin (parts : List String) : String :=
  if String.intercalate "/" parts = "" then "." else String.intercalate "/" parts

/-- A sample `path.relative`: `target` without the leading `origin/` when it
lies below `origin`. -/
def sampleRelative (origin target : String) : String :=
  if startsWithChars (origin ++ "/").toList target.toList then
    String.mk (target.toList.drop (origin.length + 1))
  else target

/-- A sample `path.basename`: what follows the last slash. -/
def sampleBasename (p : String) : String :=
  String.mk (p.toList.reverse.takeWhile (fun c => c != '/')).reverse

/-- A sample `path.extname`, given on the file names used below. -/
def sampleExtname (file : String) : String :=
  if file = "a.js" then ".js"
  else if file = "a.ts" then ".ts"
  else if file = "gone.ts" then ".ts"
  else if file = "b.md" then ".md"
  else if file = "B.MD" then ".MD"
  else ""

/-- A sample working tree: `a.js`, `a.ts`, `b.md` and `B.MD` exist, `gone.ts`
does not, and ESLint and Prettier are installed under `/repo/node_modules`. -/
def sampleExists (p : String) : Bool :=
  p == "a.js" || p == "a.ts" || p == "b.md" || p == "B.MD" ||
  p == "/repo/node_modules/eslint" || p == "/repo/node_modules/eslint/bin/eslint.js" ||
  p == "/repo/node_modules/prettier" || p == "/repo/node_modules/prettier/bin/prettier.cjs"

/-- A sample environment: a repository at `/repo` whose staged-file query
prints `staged`, whose lint tool prints `lintStdout` (which `JSON.parse` turns
into `parsed`) and exits with `lintStatus`, and whose formatter exits with
`formatStatus`; re-adding `b.md` fails, every other re-add succeeds. -/
def sampleEnv (staged : String) (lintStdout : String) (parsed : Option JSVal)
    (lintStatus formatStatus : Option Int) : Env :=
  { execSync := fun cmd =>
      if cmd = gitDirCmd then some ".git\n"
      else if cmd = stagedCmd then some staged
      else if cmd = toplevelCmd then some "/repo\n"
      else if cmd = gitAddCmd "b.md" then none
      else if startsWithChars "git add ".toList cmd.toList then some ""
      else none
    spawnSync := fun command _ =>
      if command = "node" then { status := lintStatus, stdout := some lintStdout }
      else { status := formatStatus, stdout := none }
    existsSync := sampleExists
    join := sampleJoin
    join_ne_empty := by
      intro parts
      unfold sampleJoin
      split
      · decide
      · assumption
    extname := sampleExtname
    relative := sampleRelative
    cwd := "/repo"
    platform := "linux"
    jsonParse := fun text =>
      if text = "[]" then some (JSVal.arr [])
      else if text = lintStdout then parsed
      else none
    jsonParse_empty := by simp
    coercedGtZero := fun _ => some false
    coercedToString := fun _ => some "[object Object]" }

/-- An error-severity message at line 3, column 5. -/
def sampleError : JSVal :=
  JSVal.obj [("ruleId", JSVal.str "no-var"), ("severity", JSVal.num 2),
    ("message", JSVal.str "Unexpected var"), ("line", JSVal.num 3), ("column", JSVal.num 5)]

/-- A warning-severity message at line 7, column 1. -/
def sampleWarning : JSVal :=
  JSVal.obj [("ruleId", JSVal.str "no-console"), ("severity", JSVal.num 1),
    ("message", JSVal.str "Unexpected console"), ("line", JSVal.num 7), ("column", JSVal.num 1)]

/-- A file record for `/repo/a.js` with the given count and messages. -/
def sampleRecord (errorCount : Int) (messages : List JSVal) : JSVal :=
  JSVal.obj [("filePath", JSVal.str "/repo/a.js"), ("messages", JSVal.arr messages),
    ("errorCount", JSVal.num errorCount)]

/-- The output text of a lint run reporting one error and one warning. -/
def oneErrorText : String :=
  "[\x7b\"filePath\":\"/repo/a.js\",\"messages\":[\x7b\"ruleId\":\"no-var\",\"severity\":2,\"message\":\"Unexpected var\",\"line\":3,\"column\":5\x7d,\x7b\"ruleId\":\"no-console\",\"severity\":1,\"message\":\"Unexpected console\",\"line\":7,\"column\":1\x7d],\"errorCount\":1\x7d]"

/-- The parsed form of `oneErrorText`. -/
def oneErrorReport : List JSVal :=
  [sampleRecord 1 [sampleError, sampleWarning]]

/-- A report text whose record carries an error-severity message under an
`errorCount` of zero. -/
def uncountedText : String :=
  "[\x7b\"filePath\":\"/repo/a.js\",\"messages\":[\x7b\"ruleId\":\"no-var\",\"severity\":2,\"message\":\"Unexpected var\",\"line\":3,\"column\":5\x7d],\"errorCount\":0\x7d]"

/-- The parsed form of `uncountedText`. -/
def uncountedReport : List JSVal :=
  [sampleRecord 0 [sampleError]]

/-- A fatal parse error at line 9, column 2: error severity, no rule. -/
def sampleFatal : JSVal :=
  JSVal.obj [("ruleId", JSVal.null), ("fatal", JSVal.bool true), ("severity", JSVal.num 2),
    ("message", JSVal.str "Parsing error: Unexpected token"), ("line", JSVal.num 9),
    ("column", JSVal.num 2)]

/-- The output text of a lint run reporting two errors (one without a rule)
and one warning. -/
def twoErrorsText : String :=
  "[\x7b\"filePath\":\"/repo/a.js\",\"messages\":[\x7b\"ruleId\":\"no-var\",\"severity\":2,\"message\":\"Unexpected var\",\"line\":3,\"column\":5\x7d,\x7b\"ruleId\":\"no-console\",\"severity\":1,\"message\":\"Unexpected console\",\"line\":7,\"column\":1\x7d,\x7b\"ruleId\":null,\"fatal\":true,\"severity\":2,\"message\":\"Parsing error: Unexpected token\",\"line\":9,\"column\":2\x7d],\"errorCount\":2\x7d]"

/-- The parsed form of `twoErrorsText`. -/
def twoErrorsReport : List JSVal :=
  [sampleRecord 2 [sampleError, sampleWarning, sampleFatal]]

/-- The two findings of `twoErrorsReport` in the data model of the
specification. -/
def twoErrorsFindings : List LintFinding :=
  [{ file_path := "/repo/a.js", line := 3, column := 5, message := "Unexpected var",
     rule_identifier := some "no-var" },
   { file_path := "/repo/a.js", line := 9, column := 2,
     message := "Parsing error: Unexpected token", rule_identifier := none }]

/-- An output text holding a file record with one error, followed by the
number five. -/
def strayElementText : String :=
  "[\x7b\"filePath\":\"/repo/a.js\",\"messages\":[\x7b\"ruleId\":\"no-var\",\"severity\":2,\"message\":\"Unexpected var\",\"line\":3,\"column\":5\x7d],\"errorCount\":1\x7d,5]"

/-- The parsed form of `strayElementText`. -/
def strayElementReport : JSVal :=
  JSVal.arr [sampleRecord 1 [sampleError], JSVal.num 5]

/-- The output text of `oneErrorText` with the warning removed. -/
def errorOnlyText : String :=
  "[\x7b\"filePath\":\"/repo/a.js\",\"messages\":[\x7b\"ruleId\":\"no-var\",\"severity\":2,\"message\":\"Unexpected var\",\"line\":3,\"column\":5\x7d],\"errorCount\":1\x7d]"

/-- An output of the lint tool that is a JSON object, not an array. -/
def objectText : String :=
  "\x7b\"fatal\":true\x7d"

/-- The parsed form of `objectText`. -/
def objectOutput : JSVal :=
  JSVal.obj [("fatal", JSVal.bool true)]

/-- An output of the lint tool that is not JSON. -/
def brokenText : String :=
  "Oops! Something went wrong! :("

/-- The sample environment in the middle of a merge: `.git/MERGE_HEAD`
exists. -/
def mergingEnv : Env :=
  { sampleEnv "a.js\n" oneErrorText (some (JSVal.arr oneErrorReport)) (some 1) (some 0) with
    existsSync := fun p => p == ".git/MERGE_HEAD" || sampleExists p }

/-- An environment outside any git repository: every command fails. -/
def outsideRepoEnv : Env :=
  { sampleEnv "" "" none none none with execSync := fun _ => none }

/-- A sample installer environment: the repository is at `/repo` and the
installer runs as an ordinary user. -/
def sampleInstallEnv (now : Nat) : InstallEnv :=
  { gitToplevel := some "/repo\n", join := sampleJoin, basename := sampleBasename,
    now := now, createMode := 0o644, root := false }

/-- A sample repository holding a foreign pre-commit hook with the permission
bits `mode`, owned by the installing user like the hooks directory. -/
def foreignHookFs (mode : Nat) : FileSys := fun p =>
  if p = "/repo/.git/hooks" then some (FsNode.dir 0o755 PermClass.owner)
  else if p = "/repo/.git/hooks/pre-commit" then
    some (FsNode.file "#!/bin/sh\nnpm test\n" mode PermClass.owner)
  else none

/-- A sample repository with a hooks directory and no pre-commit hook. -/
def noHookFs : FileSys := fun p =>
  if p = "/repo/.git/hooks" then some (FsNode.dir 0o755 PermClass.owner) else none

/-- The findings of the lint step in a run of `main`: the `errors` of
`runESLint` on the lint-eligible subset of the staged files. -/
def lintFindings (env : Env) : List Finding :=
  match (runESLint env (filterFilesByExtension env (getStagedFiles env)
      SUPPORTED_EXTENSIONS.eslint)).2 with
  | some r => r.errors
  | none => []

/-! ## Lemmas on the reduction of the report -/

theorem getProp_of_not_nullish (v : JSVal) (key : String) (h : v.isNullish = false) :
    v.getProp key = some (v.prop key) := by
  cases v <;> simp [JSVal.getProp, JSVal.isNullish] at h ⊢

theorem getProp_eq_none_iff (v : JSVal) (key : String) :
    v.getProp key = none ↔ v.isNullish = true := by
  cases v <;> simp [JSVal.getProp, JSVal.isNullish]

theorem isNullish_of_isObj (v : JSVal) (h : v.isObj = true) : v.isNullish = false := by
  cases v <;> simp [JSVal.isObj, JSVal.isNullish] at h ⊢

/-- On messages none of which is `null`, the inner loop pushes exactly the
messages of severity 2, in order. -/
theorem messageFindings_of_not_nullish (file : JSVal) (msgs : List JSVal)
    (h : ∀ m ∈ msgs, m.isNullish = false) :
    messageFindings file msgs = some ((msgs.filter isErrorMessage).map (toFinding file)) := by
  induction msgs with
  | nil => rfl
  | cons m rest ih =>
    have hm : m.isNullish = false := h m (List.mem_cons_self _ _)
    have hrest := ih (fun x hx => h x (List.mem_cons_of_mem _ hx))
    simp only [messageFindings, getProp_of_not_nullish m "severity" hm, hrest]
    by_cases h2 : (m.prop "severity").isTwo = true
    · simp [List.filter, isErrorMessage, h2]
    · simp [List.filter, isErrorMessage, h2]

/-- The inner loop raises exactly when a message is `null`. -/
theorem messageFindings_eq_none_iff (file : JSVal) (msgs : List JSVal) :
    messageFindings file msgs = none ↔ msgs.any JSVal.isNullish = true := by
  induction msgs with
  | nil => simp [messageFindings]
  | cons m rest ih =>
    by_cases hm : m.isNullish = true
    · have : m.getProp "severity" = none := (getProp_eq_none_iff m _).2 hm
      simp [messageFindings, this, hm]
    · have hm2 : m.isNullish = false := by simpa using hm
      simp only [messageFindings, getProp_of_not_nullish m "severity" hm2, List.any_cons, hm2,
        Bool.false_or]
      rw [← ih]
      cases hr : messageFindings file rest with
      | none => simp
      | some more => by_cases h2 : (m.prop "severity").isTwo = true <;> simp [h2]

/-- What the shape of a file record gives: a number under `errorCount` and an
array of objects under `messages`. -/
theorem isFileRecord_parts (r : JSVal) (h : isFileRecord r = true) :
    r.isNullish = false ∧ (∃ n, r.prop "errorCount" = JSVal.num n) ∧
      ∃ msgs, r.prop "messages" = JSVal.arr msgs ∧ ∀ m ∈ msgs, m.isObj = true := by
  unfold isFileRecord at h
  simp only [Bool.and_eq_true] at h
  obtain ⟨⟨⟨hobj, _⟩, hcount⟩, hmsgs⟩ := h
  refine ⟨isNullish_of_isObj r hobj, ?_, ?_⟩
  · cases hc : r.prop "errorCount" <;> simp [hc] at hcount
    exact ⟨_, rfl⟩
  · cases hm : r.prop "messages" <;> simp [hm] at hmsgs
    exact ⟨_, rfl, hmsgs⟩

/-- On a file record the loop body yields its error-severity messages when
`errorCount` is above zero, and nothing otherwise. -/
theorem recordFindings_of_isFileRecord (env : Env) (r : JSVal) (h : isFileRecord r = true) :
    recordFindings env r = some (if hasErrorCount r then errorFindings r else []) := by
  obtain ⟨hnull, ⟨n, hn⟩, msgs, hmsgs, hall⟩ := isFileRecord_parts r h
  have hinner := messageFindings_of_not_nullish r msgs
    (fun m hm => isNullish_of_isObj m (hall m hm))
  unfold recordFindings
  rw [getProp_of_not_nullish r "errorCount" hnull, hn]
  by_cases hpos : n > 0
  · simp [gtZero, hpos, hmsgs, JSVal.forEachItems, hinner, hasErrorCount, hn, errorFindings,
      messagesOf]
  · simp [gtZero, hpos, hasErrorCount, hn]

/-- On a list of file records the outer loop yields the error-severity
messages of the records whose `errorCount` is above zero. -/
theorem reportFindings_of_records (env : Env) (records : List JSVal)
    (h : records.all isFileRecord = true) :
    reportFindings env records = some (countedFindings records) := by
  induction records with
  | nil => rfl
  | cons r rest ih =>
    simp only [List.all_cons, Bool.and_eq_true] at h
    have hrest := ih h.2
    simp only [reportFindings, recordFindings_of_isFileRecord env r h.1, hrest]
    by_cases hc : hasErrorCount r = true
    · simp [countedFindings, List.filter, hc]
    · simp [countedFindings, List.filter, hc]

/-- The loop body raises exactly in the cases listed by `recordRaises`. -/
theorem recordFindings_eq_none_iff (env : Env) (file : JSVal) :
    recordFindings env file = none ↔ recordRaises env file = true := by
  by_cases hn : file.isNullish = true
  · have : file.getProp "errorCount" = none := (getProp_eq_none_iff file _).2 hn
    simp [recordFindings, recordRaises, this, hn]
  · have hn2 : file.isNullish = false := by simpa using hn
    simp only [recordFindings, recordRaises, getProp_of_not_nullish file "errorCount" hn2, hn2,
      Bool.false_or]
    cases hg : gtZero env (file.prop "errorCount") with
    | none => simp
    | some b =>
      cases b with
      | false => simp
      | true =>
        cases hm : file.prop "messages" <;> simp [JSVal.forEachItems]
        rename_i items
        rw [messageFindings_eq_none_iff, List.any_eq_true]

/-- The outer loop raises exactly when its body raises on some element. -/
theorem reportFindings_eq_none_iff (env : Env) (files : List JSVal) :
    reportFindings env files = none ↔ files.any (recordRaises env) = true := by
  induction files with
  | nil => simp [reportFindings]
  | cons f rest ih =>
    simp only [reportFindings, List.any_cons, Bool.or_eq_true]
    rw [← ih, ← recordFindings_eq_none_iff]
    cases hr : recordFindings env f with
    | none => simp
    | some here =>
      cases hrest : reportFindings env rest with
      | none => simp
      | some more => simp

/-- The `try` block after `JSON.parse` throws exactly when `traversalRaises`
says so. -/
theorem reduceReport_eq_none_iff (env : Env) (output : JSVal) :
    reduceReport env output = none ↔ traversalRaises env output = true := by
  cases output <;> simp [reduceReport, traversalRaises, JSVal.forEachItems]
  rename_i items
  have key := reportFindings_eq_none_iff env items
  rw [List.any_eq_true] at key
  rw [← key]
  cases reportFindings env items <;> simp

/-- On a report of file records the `try` block returns the counted findings,
and passes exactly when there is none. -/
theorem reduceReport_of_records (env : Env) (records : List JSVal)
    (h : records.all isFileRecord = true) :
    reduceReport env (JSVal.arr records) =
      some { success := (countedFindings records).length == 0,
             errors := countedFindings records } := by
  simp [reduceReport, JSVal.forEachItems, reportFindings_of_records env records h]

theorem possiblePaths_ne_empty (env : Env) (nodeModulesPath toolName p : String)
    (h : p ∈ possiblePaths env nodeModulesPath toolName) : p ≠ "" := by
  unfold possiblePaths at h
  rcases List.mem_append.mp h with h | h
  · by_cases ht : toolName = "prettier"
    · simp only [ht, if_true, List.mem_cons, List.mem_singleton, List.not_mem_nil,
        or_false] at h
      rcases h with rfl | rfl | rfl | rfl <;> exact env.join_ne_empty _
    · simp [ht] at h
  · by_cases ht : toolName = "eslint"
    · simp only [ht, if_true, List.mem_cons, List.mem_singleton, List.not_mem_nil,
        or_false] at h
      rcases h with rfl | rfl <;> exact env.join_ne_empty _
    · simp [ht] at h

/-- A tool located by `detectTool` is never the empty string, so the tests
`!eslintPath` and `!prettierPath` fail on it. -/
theorem detectTool_path_ne_empty (env : Env) (toolName : String) (t : List Event)
    (p : String) (hname : toolName ≠ "")
    (h : detectTool env toolName = (t, some (some p))) : p ≠ "" := by
  unfold detectTool at h
  cases h1 : env.execSync toplevelCmd with
  | none => simp [h1] at h
  | some out =>
    cases h2 : localTool env (env.join [jsTrim out, "node_modules", toolName]) toolName with
    | some q =>
      simp only [h1, h2, Prod.mk.injEq, Option.some.injEq] at h
      obtain ⟨_, rfl⟩ := h
      unfold localTool at h2
      by_cases hex : env.existsSync (env.join [jsTrim out, "node_modules", toolName]) = true
      · rw [if_pos hex] at h2
        exact possiblePaths_ne_empty env _ _ _ (List.mem_of_find?_eq_some h2)
      · rw [if_neg hex] at h2
        cases h2
    | none =>
      cases h3 : env.execSync (whichCmd env toolName) with
      | some o =>
        simp only [h1, h2, h3, Prod.mk.injEq, Option.some.injEq] at h
        obtain ⟨_, rfl⟩ := h
        exact hname
      | none => simp [h1, h2, h3] at h

/-- What `runESLint` returns once the lint tool was located: the result of
the `try` block, or the vacuous pass of the `catch`. -/
theorem runESLint_located (env : Env) (files : List String) (t : List Event)
    (eslintPath : String) (hfiles : files ≠ [])
    (htool : detectTool env "eslint" = (t, some (some eslintPath))) :
    (runESLint env files).2 =
      some ((lintTry env (env.spawnSync "node" (eslintArgs eslintPath files)).stdout).getD
        LintResult.pass) := by
  have hlen : files.length ≠ 0 := by
    intro h0
    exact hfiles (List.length_eq_zero.mp h0)
  have hpath := detectTool_path_ne_empty env "eslint" t eslintPath (by decide) htool
  unfold runESLint
  rw [if_neg hlen, htool]
  simp only [hpath, if_false]
  cases hl : lintTry env (env.spawnSync "node" (eslintArgs eslintPath files)).stdout <;> simp [hl]


/-! ## Removing the warnings from a report -/

theorem lookup_mapProp (name : String) (h : JSVal → JSVal) (props : List (String × JSVal))
    (key : String) :
    (mapProp name h props).lookup key =
      (props.lookup key).map fun v => if key = name then h v else v := by
  induction props with
  | nil => rfl
  | cons kv rest ih =>
    obtain ⟨k, v⟩ := kv
    by_cases hk : key = k
    · subst hk
      by_cases hm : key = name
      · simp [mapProp, List.lookup, hm]
      · simp [mapProp, List.lookup, hm]
    · have hne : (key == k) = false := by simpa using hk
      by_cases hm : k = name
      · subst hm
        simp [mapProp, List.lookup, hne, ih]
      · simp [mapProp, List.lookup, hm, hne, ih]

/-- Properties other than `messages` are untouched by `keepErrors`. -/
theorem prop_keepErrors_of_ne (r : JSVal) (key : String) (hkey : key ≠ "messages") :
    (keepErrors r).prop key = r.prop key := by
  cases r <;> simp [keepErrors, JSVal.prop]
  rename_i props
  rw [lookup_mapProp]
  cases props.lookup key <;> simp [hkey]

/-- The messages left by `keepErrors` are the error-severity ones. -/
theorem messagesOf_keepErrors (r : JSVal) :
    messagesOf (keepErrors r) = (messagesOf r).filter isErrorMessage := by
  cases r <;> simp [keepErrors, messagesOf, JSVal.prop]
  rename_i props
  rw [lookup_mapProp]
  cases hl : props.lookup "messages" with
  | none => simp
  | some v => cases v <;> simp [errorMessagesOnly]

theorem hasErrorCount_keepErrors (r : JSVal) :
    hasErrorCount (keepErrors r) = hasErrorCount r := by
  unfold hasErrorCount
  rw [prop_keepErrors_of_ne r "errorCount" (by decide)]

theorem toFinding_keepErrors (r msg : JSVal) : toFinding (keepErrors r) msg = toFinding r msg := by
  unfold toFinding
  rw [prop_keepErrors_of_ne r "filePath" (by decide)]

theorem errorFindings_keepErrors (r : JSVal) :
    errorFindings (keepErrors r) = errorFindings r := by
  unfold errorFindings
  rw [messagesOf_keepErrors, List.filter_filter]
  simp [toFinding_keepErrors]

theorem isFileRecord_keepErrors (r : JSVal) (h : isFileRecord r = true) :
    isFileRecord (keepErrors r) = true := by
  have hmsgs := messagesOf_keepErrors r
  unfold isFileRecord at h ⊢
  simp only [Bool.and_eq_true] at h ⊢
  obtain ⟨⟨⟨hobj, hpath⟩, hcount⟩, hm⟩ := h
  rw [prop_keepErrors_of_ne r "filePath" (by decide),
    prop_keepErrors_of_ne r "errorCount" (by decide)]
  refine ⟨⟨⟨?_, hpath⟩, hcount⟩, ?_⟩
  · cases r <;> simp [JSVal.isObj, keepErrors] at hobj ⊢
  · cases r <;> simp [JSVal.isObj] at hobj
    rename_i props
    simp only [keepErrors, JSVal.prop, lookup_mapProp] at hm ⊢
    cases hl : props.lookup "messages" with
    | none => simp [hl] at hm
    | some v =>
      cases v <;> simp [hl, errorMessagesOnly] at hm ⊢
      intro m hmem
      exact Or.inr (hm m hmem)

theorem countedFindings_keepErrors (records : List JSVal) :
    countedFindings (records.map keepErrors) = countedFindings records := by
  induction records with
  | nil => rfl
  | cons r rest ih =>
    unfold countedFindings at ih ⊢
    by_cases hc : hasErrorCount r = true
    · simp [List.filter, hc, hasErrorCount_keepErrors, errorFindings_keepErrors, ih]
    · simp [List.filter, hc, hasErrorCount_keepErrors, ih]

/-- Every counted finding is an error-severity message of one of the
records. -/
theorem mem_countedFindings (records : List JSVal) (f : Finding)
    (hf : f ∈ countedFindings records) :
    ∃ r ∈ records, hasErrorCount r = true ∧
      ∃ m ∈ messagesOf r, isErrorMessage m = true ∧ f = toFinding r m := by
  simp only [countedFindings, List.mem_flatten, List.mem_map, List.mem_filter] at hf
  obtain ⟨l, ⟨r, ⟨hr, hc⟩, rfl⟩, hfl⟩ := hf
  simp only [errorFindings, List.mem_map, List.mem_filter] at hfl
  obtain ⟨m, ⟨hm, he⟩, rfl⟩ := hfl
  exact ⟨r, hr, hc, m, hm, he, rfl⟩

/-- An error-severity message of a record with a positive count is a counted
finding. -/
theorem toFinding_mem_countedFindings (records : List JSVal) (r m : JSVal)
    (hr : r ∈ records) (hc : hasErrorCount r = true) (hm : m ∈ messagesOf r)
    (he : isErrorMessage m = true) : toFinding r m ∈ countedFindings records := by
  simp only [countedFindings, List.mem_flatten, List.mem_map, List.mem_filter]
  refine ⟨errorFindings r, ⟨r, ⟨hr, hc⟩, rfl⟩, ?_⟩
  simp only [errorFindings, List.mem_map, List.mem_filter]
  exact ⟨m, ⟨hm, he⟩, rfl⟩

/-- When every record that holds an error-severity message has a positive
`errorCount`, the counted findings are all the error-severity messages. -/
theorem countedFindings_eq_specFindings (records : List JSVal)
    (h : ∀ r ∈ records, (∃ m ∈ messagesOf r, isErrorMessage m = true) →
      hasErrorCount r = true) :
    countedFindings records = specFindings records := by
  induction records with
  | nil => rfl
  | cons r rest ih =>
    have hrest := ih (fun x hx => h x (List.mem_cons_of_mem _ hx))
    unfold countedFindings specFindings at hrest ⊢
    by_cases hc : hasErrorCount r = true
    · simp [List.filter, hc, hrest]
    · have hnone : errorFindings r = [] := by
        simp only [errorFindings, List.map_eq_nil_iff, List.filter_eq_nil_iff]
        intro m hm he
        exact hc (h r (List.mem_cons_self _ _) ⟨m, hm, he⟩)
      simp [List.filter, hc, hrest, hnone]

/-! ## The lint step -/

/-- On a report that parses into per-file records, `runESLint` returns the
counted findings and passes exactly when there is none. -/
theorem runESLint_of_records (env : Env) (files : List String) (t : List Event)
    (eslintPath : String) (records : List JSVal) (hfiles : files ≠ [])
    (htool : detectTool env "eslint" = (t, some (some eslintPath)))
    (hparse : env.jsonParse (stdoutText
      (env.spawnSync "node" (eslintArgs eslintPath files)).stdout) = some (JSVal.arr records))
    (hshape : isReport (JSVal.arr records) = true) :
    (runESLint env files).2 =
      some { success := (countedFindings records).length == 0,
             errors := countedFindings records } := by
  rw [runESLint_located env files t eslintPath hfiles htool]
  simp only [lintTry, hparse]
  rw [reduceReport_of_records env records hshape]
  rfl

/-- C3: for every lint report (an array of per-file records), every finding
of `runESLint` is built from a message of error severity (severity 2) of one
of the records, and the returned value (`success` and `errors`) is the same as
the one returned for the report with all messages of another severity
removed. -/
theorem runESLint_ignores_warnings (env₁ env₂ : Env) (files₁ files₂ : List String)
    (t₁ t₂ : List Event) (path₁ path₂ : String) (records : List JSVal)
    (hfiles₁ : files₁ ≠ []) (htool₁ : detectTool env₁ "eslint" = (t₁, some (some path₁)))
    (hparse₁ : env₁.jsonParse (stdoutText
      (env₁.spawnSync "node" (eslintArgs path₁ files₁)).stdout) = some (JSVal.arr records))
    (hfiles₂ : files₂ ≠ []) (htool₂ : detectTool env₂ "eslint" = (t₂, some (some path₂)))
    (hparse₂ : env₂.jsonParse (stdoutText
      (env₂.spawnSync "node" (eslintArgs path₂ files₂)).stdout) =
        some (JSVal.arr (records.map keepErrors)))
    (hshape : isReport (JSVal.arr records) = true) :
    (∀ res, (runESLint env₁ files₁).2 = some res → ∀ f ∈ res.errors,
      ∃ r ∈ records, ∃ m ∈ messagesOf r, isErrorMessage m = true ∧ f = toFinding r m) ∧
    (runESLint env₂ files₂).2 = (runESLint env₁ files₁).2 := by
  have hshape₂ : isReport (JSVal.arr (records.map keepErrors)) = true := by
    simp only [isReport, List.all_eq_true] at hshape ⊢
    intro r hr
    obtain ⟨r0, hr0, rfl⟩ := List.mem_map.mp hr
    exact isFileRecord_keepErrors r0 (hshape r0 hr0)
  have h₁ := runESLint_of_records env₁ files₁ t₁ path₁ records hfiles₁ htool₁ hparse₁ hshape
  have h₂ := runESLint_of_records env₂ files₂ t₂ path₂ (records.map keepErrors) hfiles₂
    htool₂ hparse₂ hshape₂
  constructor
  · intro res hres f hf
    rw [h₁] at hres
    cases hres
    obtain ⟨r, hr, _, m, hm, he, hfm⟩ := mem_countedFindings records f hf
    exact ⟨r, hr, m, hm, he, hfm⟩
  · rw [h₁, h₂, countedFindings_keepErrors]

set_option maxRecDepth 20000 in
/-- C3, on a sample run: the report with one error and one warning and the
report with the error alone give the same failing result. -/
theorem runESLint_ignores_warnings_witness :
    (runESLint (sampleEnv "a.js\n" errorOnlyText
        (some (JSVal.arr (oneErrorReport.map keepErrors))) (some 1) (some 0)) ["a.js"]).2 =
      (runESLint (sampleEnv "a.js\n" oneErrorText (some (JSVal.arr oneErrorReport))
        (some 1) (some 0)) ["a.js"]).2 ∧
    oneErrorReport.map messagesOf = [[sampleError, sampleWarning]] ∧
    (oneErrorReport.map keepErrors).map messagesOf = [[sampleError]] :=
  ⟨(runESLint_ignores_warnings
      (sampleEnv "a.js\n" oneErrorText (some (JSVal.arr oneErrorReport)) (some 1) (some 0))
      (sampleEnv "a.js\n" errorOnlyText (some (JSVal.arr (oneErrorReport.map keepErrors)))
        (some 1) (some 0))
      ["a.js"] ["a.js"] [Event.exec toplevelCmd true] [Event.exec toplevelCmd true]
      "/repo/node_modules/eslint/bin/eslint.js" "/repo/node_modules/eslint/bin/eslint.js"
      oneErrorReport (by decide) (by decide) rfl (by decide) (by decide) rfl (by decide)).2,
   rfl, rfl⟩

/-- The exit status of the lint process plays no part in `runESLint`. -/
theorem reportFindings_withStatus (env : Env) (status : Option Int) (files : List JSVal) :
    reportFindings (env.withStatus status) files = reportFindings env files := by
  have hg : ∀ v, gtZero (env.withStatus status) v = gtZero env v := by
    intro v
    cases v <;> rfl
  have hr : ∀ f, recordFindings (env.withStatus status) f = recordFindings env f := by
    intro f
    simp only [recordFindings, hg]
  induction files with
  | nil => rfl
  | cons f rest ih => simp only [reportFindings, hr, ih]

theorem runESLint_withStatus (env : Env) (status : Option Int) (files : List String) :
    runESLint (env.withStatus status) files = runESLint env files := by
  have hd : detectTool (env.withStatus status) "eslint" = detectTool env "eslint" := rfl
  have hl : ∀ p, lintTry (env.withStatus status)
      ((env.withStatus status).spawnSync "node" (eslintArgs p files)).stdout =
      lintTry env (env.spawnSync "node" (eslintArgs p files)).stdout := by
    intro p
    have hp : (env.withStatus status).jsonParse = env.jsonParse := rfl
    have hs : ((env.withStatus status).spawnSync "node" (eslintArgs p files)).stdout =
        (env.spawnSync "node" (eslintArgs p files)).stdout := rfl
    simp only [lintTry, reduceReport, hp, hs, reportFindings_withStatus]
  unfold runESLint
  rw [hd]
  simp only [hl]

/-- C6 as stated fails: the output is a valid file record with one error
followed by the number five, so it is not an array of per-file records; the
loops do not throw on it and `runESLint` fails with the finding instead of
returning the vacuous pass. -/
theorem runESLint_blocks_on_stray_element :
    isReport strayElementReport = false ∧
    ((runESLint (sampleEnv "a.js\n" strayElementText (some strayElementReport)
        (some 1) (some 0)) ["a.js"]).2.map fun r => (r.success, r.errors.length)) =
      some (false, 1) := by
  decide

/-- C6, amended: once the lint tool was located, `runESLint` returns the
vacuous pass `{success: true, errors: []}` whenever `JSON.parse` throws on the
tool's output, or the loops over the parsed value throw (the value is not an
array, one of its elements is `null`, the comparison `errorCount > 0` raises,
or an element with a positive `errorCount` has a `messages` that is not an
array or holds a `null`); and whatever was printed, the result of `runESLint`
is the same for every exit status of the tool. -/
theorem runESLint_pass_when_try_throws (env : Env) (files : List String) (t : List Event)
    (eslintPath : String) (hfiles : files ≠ [])
    (htool : detectTool env "eslint" = (t, some (some eslintPath)))
    (hthrow : env.jsonParse (stdoutText
        (env.spawnSync "node" (eslintArgs eslintPath files)).stdout) = none ∨
      ∃ v, env.jsonParse (stdoutText
        (env.spawnSync "node" (eslintArgs eslintPath files)).stdout) = some v ∧
        traversalRaises env v = true) :
    (runESLint env files).2 = some LintResult.pass ∧
    ∀ status, runESLint (env.withStatus status) files = runESLint env files := by
  refine ⟨?_, fun status => runESLint_withStatus env status files⟩
  rw [runESLint_located env files t eslintPath hfiles htool]
  rcases hthrow with hnone | ⟨v, hv, hraise⟩
  · simp [lintTry, hnone]
  · simp [lintTry, hv, (reduceReport_eq_none_iff env v).2 hraise]

/-- C6, on sample runs: the lint tool prints a crash banner and exits with
status 2, or prints a JSON object instead of an array; in both runs
`runESLint` warns and returns the vacuous pass. -/
theorem runESLint_pass_when_try_throws_witness :
    ((runESLint (sampleEnv "a.js\n" brokenText none (some 2) (some 0)) ["a.js"]).2 =
      some LintResult.pass ∧
    (runESLint (sampleEnv "a.js\n" brokenText none (some 2) (some 0)) ["a.js"]).1 =
      [Event.exec toplevelCmd true, Event.log "🔍 Linting staged files...",
       Event.spawn "node" ["/repo/node_modules/eslint/bin/eslint.js", "--format", "json", "a.js"],
       Event.warn "⚠️  Could not parse ESLint output, proceeding anyway"]) ∧
    (runESLint (sampleEnv "a.js\n" objectText (some objectOutput) (some 2) (some 0))
      ["a.js"]).2 = some LintResult.pass :=
  ⟨⟨(runESLint_pass_when_try_throws (sampleEnv "a.js\n" brokenText none (some 2) (some 0))
      ["a.js"] [Event.exec toplevelCmd true] "/repo/node_modules/eslint/bin/eslint.js"
      (by decide) (by decide) (Or.inl rfl)).1,
    by decide⟩,
   (runESLint_pass_when_try_throws
      (sampleEnv "a.js\n" objectText (some objectOutput) (some 2) (some 0))
      ["a.js"] [Event.exec toplevelCmd true] "/repo/node_modules/eslint/bin/eslint.js"
      (by decide) (by decide) (Or.inr ⟨objectOutput, rfl, by decide⟩)).1⟩

/-! ## The format pass -/

theorem startsWith_gitAdd_gitAddCmd (file : String) :
    startsWithChars "git add ".toList (gitAddCmd file).toList = true := by
  have h : (gitAddCmd file).toList = "git add ".toList ++ ('"' :: (file.toList ++ ['"'])) := by
    simp only [gitAddCmd, String.toList, String.data_append]
    rfl
  rw [h]
  rfl

theorem startsWith_gitAdd_whichCmd (env : Env) (toolName : String) :
    startsWithChars "git add ".toList (whichCmd env toolName).toList = false := by
  unfold whichCmd
  by_cases hp : env.platform = "win32"
  · have h : ("where" ++ " " ++ toolName).toList = 'w' :: ("here ".toList ++ toolName.toList) := by
      simp only [String.toList, String.data_append]
      rfl
    rw [if_pos hp, h]
    rfl
  · have h : ("which" ++ " " ++ toolName).toList = 'w' :: ("hich ".toList ++ toolName.toList) := by
      simp only [String.toList, String.data_append]
      rfl
    rw [if_neg hp, h]
    rfl

/-- The events of `detectTool` are the top-level query and the system-wide
lookup. -/
theorem detectTool_events (env : Env) (toolName : String) :
    ∀ e ∈ (detectTool env toolName).1,
      ∃ ok, e = Event.exec toplevelCmd ok ∨ e = Event.exec (whichCmd env toolName) ok := by
  intro e he
  unfold detectTool at he
  cases h1 : env.execSync toplevelCmd with
  | none =>
    simp [h1] at he
    exact ⟨false, Or.inl he⟩
  | some out =>
    cases h2 : localTool env (env.join [jsTrim out, "node_modules", toolName]) toolName with
    | some p =>
      simp [h1, h2] at he
      exact ⟨true, Or.inl he⟩
    | none =>
      cases h3 : env.execSync (whichCmd env toolName) with
      | some o =>
        simp [h1, h2, h3] at he
        rcases he with rfl | rfl
        · exact ⟨true, Or.inl rfl⟩
        · exact ⟨true, Or.inr rfl⟩
      | none =>
        simp [h1, h2, h3] at he
        rcases he with rfl | rfl
        · exact ⟨true, Or.inl rfl⟩
        · exact ⟨false, Or.inr rfl⟩

/-- A run of `detectTool` starts no formatter and issues no re-add. -/
theorem detectTool_no_format (env : Env) (toolName : String) :
    ∀ e ∈ (detectTool env toolName).1, isFormatEvent e = false := by
  intro e he
  obtain ⟨ok, h | h⟩ := detectTool_events env toolName e he
  · subst h
    rfl
  · subst h
    exact startsWith_gitAdd_whichCmd env toolName

/-- The re-add loop issues one `git add` per file, in list order, whether or
not the earlier ones failed. -/
theorem reAddFiles_eq_map (env : Env) (files : List String) :
    reAddFiles env files =
      files.map fun f => Event.exec (gitAddCmd f) (env.execSync (gitAddCmd f)).isSome := by
  induction files with
  | nil => rfl
  | cons f rest ih =>
    cases h : env.execSync (gitAddCmd f) <;> simp [reAddFiles, h, ih]

theorem filter_isReAdd_eq_nil (l : List Event) (h : ∀ e ∈ l, isFormatEvent e = false) :
    l.filter isReAdd = [] := by
  rw [List.filter_eq_nil_iff]
  intro e he hre
  have hf := h e he
  cases e <;> simp [isReAdd, isFormatEvent] at hre hf
  rw [hre] at hf
  exact Bool.noConfusion hf

theorem filter_isReAdd_reAddFiles (env : Env) (files : List String) :
    (reAddFiles env files).filter isReAdd = reAddFiles env files := by
  rw [List.filter_eq_self, reAddFiles_eq_map]
  intro e he
  obtain ⟨f, _, rfl⟩ := List.mem_map.mp he
  exact startsWith_gitAdd_gitAddCmd f

/-- C7: once the format tool was located, `runPrettier` never raises; when
the formatter exits with status zero it then issues `git add` for every file
of the list exactly once, in list order, each attempt recorded whether it
succeeded or failed; on any other status its trace ends with the formatter
process and holds no `git add`. -/
theorem runPrettier_reAdds_iff_status_zero (env : Env) (files : List String)
    (t : List Event) (prettierPath : String) (hfiles : files ≠ [])
    (htool : detectTool env "prettier" = (t, some (some prettierPath))) :
    (runPrettier env files).2 = some () ∧
    ((env.spawnSync "npx" (prettierArgs files)).status = some 0 →
      (runPrettier env files).1 =
        t ++ [Event.log "✨ Formatting staged files...",
              Event.spawn "npx" (prettierArgs files)] ++
          files.map (fun f => Event.exec (gitAddCmd f) (env.execSync (gitAddCmd f)).isSome) ∧
      (runPrettier env files).1.filter isReAdd =
        files.map (fun f => Event.exec (gitAddCmd f) (env.execSync (gitAddCmd f)).isSome)) ∧
    ((env.spawnSync "npx" (prettierArgs files)).status ≠ some 0 →
      (runPrettier env files).1 =
        t ++ [Event.log "✨ Formatting staged files...",
              Event.spawn "npx" (prettierArgs files)] ∧
      (runPrettier env files).1.filter isReAdd = []) := by
  have hlen : files.length ≠ 0 := by
    intro h0
    exact hfiles (List.length_eq_zero.mp h0)
  have ht : t.filter isReAdd = [] := by
    apply filter_isReAdd_eq_nil
    have := detectTool_no_format env "prettier"
    rw [htool] at this
    exact this
  have hpath := detectTool_path_ne_empty env "prettier" t prettierPath (by decide) htool
  refine ⟨?_, ?_, ?_⟩
  · unfold runPrettier
    rw [if_neg hlen, htool]
    by_cases hz : (env.spawnSync "npx" (prettierArgs files)).status = some 0 <;>
      simp [hz, hpath]
  · intro hz
    have hrun : (runPrettier env files).1 =
        t ++ [Event.log "✨ Formatting staged files...",
              Event.spawn "npx" (prettierArgs files)] ++ reAddFiles env files := by
      unfold runPrettier
      rw [if_neg hlen, htool]
      simp [hz, hpath]
    refine ⟨by rw [hrun, reAddFiles_eq_map], ?_⟩
    rw [hrun, List.filter_append, List.filter_append, ht, filter_isReAdd_reAddFiles,
      reAddFiles_eq_map]
    simp [List.filter, isReAdd]
  · intro hz
    have hrun : (runPrettier env files).1 =
        t ++ [Event.log "✨ Formatting staged files...",
              Event.spawn "npx" (prettierArgs files)] := by
      unfold runPrettier
      rw [if_neg hlen, htool]
      simp [hz, hpath]
    refine ⟨hrun, ?_⟩
    rw [hrun, List.filter_append, ht]
    simp [List.filter, isReAdd]

/-- C7, on a sample run: the formatter exits with status zero on `b.md` and
`a.js`; the re-add of `b.md` fails, and `a.js` is re-added all the same. -/
theorem runPrettier_reAdds_iff_status_zero_witness :
    (runPrettier (sampleEnv "b.md\na.js\n" "" none none (some 0)) ["b.md", "a.js"]).1.filter
        isReAdd =
      [Event.exec "git add \"b.md\"" false, Event.exec "git add \"a.js\"" true] ∧
    (runPrettier (sampleEnv "b.md\na.js\n" "" none none (some 2)) ["b.md", "a.js"]).1.filter
        isReAdd = [] :=
  ⟨((runPrettier_reAdds_iff_status_zero (sampleEnv "b.md\na.js\n" "" none none (some 0))
      ["b.md", "a.js"] [Event.exec toplevelCmd true]
      "/repo/node_modules/prettier/bin/prettier.cjs" (by decide) (by decide)).2.1
        (by decide)).2,
   ((runPrettier_reAdds_iff_status_zero (sampleEnv "b.md\na.js\n" "" none none (some 2))
      ["b.md", "a.js"] [Event.exec toplevelCmd true]
      "/repo/node_modules/prettier/bin/prettier.cjs" (by decide) (by decide)).2.2
        (by decide)).2⟩

/-! ## The extension filter -/

/-- C4: a path occurs in `filterFilesByExtension(files, extensions)` if and
only if it occurs in `files`, its `path.extname` (compared as a string, so
with the dot and case-sensitively) is a member of `extensions`, and it exists
on disk; in particular a path that does not exist is in neither the
lint-eligible nor the format-eligible subset. -/
theorem filterFilesByExtension_mem_iff (env : Env) (files extensions : List String)
    (file : String) :
    (file ∈ filterFilesByExtension env files extensions ↔
      file ∈ files ∧ env.extname file ∈ extensions ∧ env.existsSync file = true) ∧
    (env.existsSync file = false →
      file ∉ filterFilesByExtension env files SUPPORTED_EXTENSIONS.eslint ∧
      file ∉ filterFilesByExtension env files SUPPORTED_EXTENSIONS.prettier) := by
  constructor
  · simp [filterFilesByExtension, List.mem_filter]
  · intro hgone
    simp [filterFilesByExtension, List.mem_filter, hgone]

/-- C4, on a sample tree: the staged `gone.ts` has a lint- and
format-recognised extension but is not on disk, so it is in neither subset,
while `a.ts` is in the lint-eligible one and `B.MD` (upper case) is not in the
format-eligible one. -/
theorem filterFilesByExtension_mem_iff_witness :
    sampleExists "gone.ts" = false ∧
    ("gone.ts" ∉ filterFilesByExtension (sampleEnv "" "" none none none)
        ["a.ts", "gone.ts", "B.MD"] SUPPORTED_EXTENSIONS.eslint ∧
      "gone.ts" ∉ filterFilesByExtension (sampleEnv "" "" none none none)
        ["a.ts", "gone.ts", "B.MD"] SUPPORTED_EXTENSIONS.prettier) ∧
    filterFilesByExtension (sampleEnv "" "" none none none)
      ["a.ts", "gone.ts", "B.MD"] SUPPORTED_EXTENSIONS.eslint = ["a.ts"] ∧
    filterFilesByExtension (sampleEnv "" "" none none none)
      ["a.ts", "gone.ts", "B.MD"] SUPPORTED_EXTENSIONS.prettier = ["a.ts"] :=
  ⟨by decide,
   (filterFilesByExtension_mem_iff (sampleEnv "" "" none none none)
      ["a.ts", "gone.ts", "B.MD"] [] "gone.ts").2 (by decide),
   by decide, by decide⟩

/-- C5: under a fixed filesystem state `filterFilesByExtension` keeps the
retained paths in their original order (its result is a sublist of the input)
and filtering a second time by the same extension set changes nothing. -/
theorem filterFilesByExtension_sublist_idempotent (env : Env)
    (files extensions : List String) :
    List.Sublist (filterFilesByExtension env files extensions) files ∧
    filterFilesByExtension env (filterFilesByExtension env files extensions) extensions =
      filterFilesByExtension env files extensions := by
  constructor
  · exact List.filter_sublist files
  · simp [filterFilesByExtension, List.filter_filter]

/-! ## The orchestrator during a rebase or merge -/

/-- C9: when a `rebase-merge` or `MERGE_HEAD` marker exists in the git dir,
`main` runs the git-dir query, prints the skip notice and exits with code 0;
its trace holds no staged-file query, no lint process, no formatter process
and no re-add. -/
theorem main_skips_during_rebase_or_merge (env : Env) (out : String)
    (hdir : env.execSync gitDirCmd = some out)
    (hmark : env.existsSync (env.join [jsTrim out, "rebase-merge"]) = true ∨
      env.existsSync (env.join [jsTrim out, "MERGE_HEAD"]) = true) :
    main env = ([Event.exec gitDirCmd true,
                 Event.log "ℹ️  Rebase/merge in progress, skipping hooks"], Outcome.exit 0) ∧
    ∀ e ∈ (main env).1,
      isEnumeration e = false ∧ isLintEvent e = false ∧ isFormatEvent e = false := by
  have hrun : main env = ([Event.exec gitDirCmd true,
      Event.log "ℹ️  Rebase/merge in progress, skipping hooks"], Outcome.exit 0) := by
    unfold main
    rw [hdir]
    have hcond : (env.existsSync (env.join [jsTrim out, "rebase-merge"]) ||
        env.existsSync (env.join [jsTrim out, "MERGE_HEAD"])) = true := by
      rcases hmark with h | h <;> simp [h]
    simp only [hcond, if_true]
  refine ⟨hrun, ?_⟩
  rw [hrun]
  intro e he
  simp only [List.mem_cons, List.mem_singleton, List.not_mem_nil, or_false] at he
  rcases he with rfl | rfl
  · decide
  · decide

/-- C9, in the sample repository in the middle of a merge, with `a.js`
staged: the hook exits 0 after the git-dir query alone. -/
theorem main_skips_during_rebase_or_merge_witness :
    mergingEnv.execSync gitDirCmd = some ".git\n" ∧
    main mergingEnv = ([Event.exec gitDirCmd true,
      Event.log "ℹ️  Rebase/merge in progress, skipping hooks"], Outcome.exit 0) :=
  ⟨by decide,
   (main_skips_during_rebase_or_merge mergingEnv ".git\n" (by decide)
      (Or.inr (by decide))).1⟩

/-! ## The orchestrator: a blocked commit -/

theorem getStagedFiles_exec_isSome (env : Env) (h : getStagedFiles env ≠ []) :
    (env.execSync stagedCmd).isSome = true := by
  unfold getStagedFiles at h
  cases hq : env.execSync stagedCmd with
  | none => simp [hq] at h
  | some o => rfl

theorem runESLint_nil (env : Env) : runESLint env [] = ([], some LintResult.pass) := by
  simp [runESLint]

/-- A run of `runESLint` starts no formatter and issues no re-add. -/
theorem runESLint_no_format (env : Env) (files : List String) :
    ∀ e ∈ (runESLint env files).1, isFormatEvent e = false := by
  intro e he
  have hdet := detectTool_no_format env "eslint"
  unfold runESLint at he
  by_cases h0 : files.length = 0
  · simp [h0] at he
  · rw [if_neg h0] at he
    rcases hd : detectTool env "eslint" with ⟨t, res⟩
    rw [hd] at he hdet
    cases res with
    | none => exact hdet e he
    | some found =>
      cases found with
      | none =>
        simp only [List.mem_append, List.mem_singleton] at he
        rcases he with he | rfl
        · exact hdet e he
        · rfl
      | some eslintPath =>
        have hpath := detectTool_path_ne_empty env "eslint" t eslintPath (by decide) hd
        simp only [hpath, if_false] at he
        cases hl : lintTry env (env.spawnSync "node" (eslintArgs eslintPath files)).stdout with
        | none =>
          simp only [hl, List.mem_append, List.mem_cons, List.mem_singleton, List.not_mem_nil,
            or_false] at he
          rcases he with (he | rfl | rfl) | rfl
          · exact hdet e he
          · rfl
          · rfl
          · rfl
        | some r =>
          simp only [hl, List.mem_append, List.mem_cons, List.mem_singleton, List.not_mem_nil,
            or_false] at he
          rcases he with he | rfl | rfl
          · exact hdet e he
          · rfl
          · rfl

theorem findingLines_no_format (env : Env) (err : Finding) :
    ∀ e ∈ (findingLines env err).1, isFormatEvent e = false := by
  intro e he
  unfold findingLines at he
  split at he
  · split at he
    · split at he
      · split at he
        · split at he
          · simp only [List.mem_cons, List.mem_singleton, List.not_mem_nil, or_false] at he
            rcases he with rfl | rfl <;> rfl
          · simp only [List.mem_singleton] at he
            subst he
            rfl
        · simp only [List.mem_cons, List.mem_singleton, List.not_mem_nil, or_false] at he
          rcases he with rfl | rfl <;> rfl
      · simp only [List.mem_singleton] at he
        subst he
        rfl
    · simp at he
  · simp at he

theorem printFindings_no_format (env : Env) (errors : List Finding) :
    ∀ e ∈ (printFindings env errors).1, isFormatEvent e = false := by
  induction errors with
  | nil => simp [printFindings]
  | cons err rest ih =>
    intro e he
    have hl := findingLines_no_format env err
    unfold printFindings at he
    rcases hf : findingLines env err with ⟨lines, done⟩
    rw [hf] at he hl
    cases done with
    | false => exact hl e he
    | true =>
      simp only [List.mem_append] at he
      rcases he with he | he
      · exact hl e he
      · exact ih e he

/-- A run of `printErrors` only writes to the console. -/
theorem printErrors_no_format (env : Env) (errors : List Finding) :
    ∀ e ∈ (printErrors env errors).1, isFormatEvent e = false := by
  intro e he
  have hp := printFindings_no_format env errors
  unfold printErrors at he
  rcases hpf : printFindings env errors with ⟨lines, done⟩
  rw [hpf] at he hp
  cases done with
  | true =>
    simp only [List.mem_append, List.mem_singleton] at he
    rcases he with (rfl | he) | rfl
    · rfl
    · exact hp e he
    · rfl
  | false =>
    simp only [List.mem_append, List.mem_singleton] at he
    rcases he with rfl | he
    · rfl
    · exact hp e he

/-- The callback of `printErrors` on a finding of the data model: the line
with the relative path, line and column, then the line with the message and
the rule in parentheses (nothing when the rule is missing or empty). -/
theorem findingLines_asEntry (env : Env) (x : LintFinding) :
    findingLines env x.asEntry =
      ([Event.error ("  " ++ env.relative env.cwd x.file_path ++ ":" ++ toString x.line ++
          ":" ++ toString x.column),
        Event.error ("    " ++ x.message ++ " " ++
          (match x.rule_identifier with
            | some rule => if rule = "" then "" else "(" ++ rule ++ ")"
            | none => ""))], true) := by
  cases hr : x.rule_identifier with
  | none => simp [findingLines, LintFinding.asEntry, interpolate, JSVal.truthy, hr]
  | some rule =>
    by_cases he : rule = ""
    · simp [findingLines, LintFinding.asEntry, interpolate, JSVal.truthy, hr, he]
    · simp [findingLines, LintFinding.asEntry, interpolate, JSVal.truthy, hr, he]

/-- When every finding can be rendered, the loop of `printErrors` writes the
lines of each finding, in order, and runs to its end. -/
theorem printFindings_complete (env : Env) (errors : List Finding)
    (h : ∀ f ∈ errors, (findingLines env f).2 = true) :
    printFindings env errors =
      ((errors.map fun f => (findingLines env f).1).flatten, true) := by
  induction errors with
  | nil => rfl
  | cons err rest ih =>
    have hrest := ih (fun f hf => h f (List.mem_cons_of_mem _ hf))
    have herr := h err (List.mem_cons_self _ _)
    rcases hl : findingLines env err with ⟨lines, done⟩
    rw [hl] at herr
    simp only at herr
    subst herr
    simp [printFindings, hl, hrest]

/-- The run of `main` once the git-dir query answered, no rebase or merge is
in progress and some file is staged. -/
theorem main_of_staged (env : Env) (out : String)
    (hdir : env.execSync gitDirCmd = some out)
    (hrebase : env.existsSync (env.join [jsTrim out, "rebase-merge"]) = false)
    (hmerge : env.existsSync (env.join [jsTrim out, "MERGE_HEAD"]) = false)
    (hstaged : getStagedFiles env ≠ []) :
    main env = ([Event.exec gitDirCmd true, Event.exec stagedCmd true] ++
      (lintAndFormat env (getStagedFiles env)).1, (lintAndFormat env (getStagedFiles env)).2) := by
  have hlen : (getStagedFiles env).length ≠ 0 := by
    intro h0
    exact hstaged (List.length_eq_zero.mp h0)
  unfold main
  simp [hdir, hrebase, hmerge, hlen, getStagedFiles_exec_isSome env hstaged]

/-- The run of `main` when the lint step fails: the two git queries, the lint
step, the printed findings, and exit code 1 (or the exception that escaped
`printErrors`). -/
theorem main_of_lint_failure (env : Env) (out : String) (t : List Event) (r : LintResult)
    (hdir : env.execSync gitDirCmd = some out)
    (hrebase : env.existsSync (env.join [jsTrim out, "rebase-merge"]) = false)
    (hmerge : env.existsSync (env.join [jsTrim out, "MERGE_HEAD"]) = false)
    (hstaged : getStagedFiles env ≠ [])
    (hlint : runESLint env (filterFilesByExtension env (getStagedFiles env)
      SUPPORTED_EXTENSIONS.eslint) = (t, some r))
    (hfail : r.success = false) :
    main env = ([Event.exec gitDirCmd true, Event.exec stagedCmd true] ++
      (t ++ (printErrors env r.errors).1),
      match (printErrors env r.errors).2 with
      | none => Outcome.uncaught
      | some _ => Outcome.exit 1) := by
  have hlen : (filterFilesByExtension env (getStagedFiles env)
      SUPPORTED_EXTENSIONS.eslint).length > 0 := by
    rcases hnil : filterFilesByExtension env (getStagedFiles env)
        SUPPORTED_EXTENSIONS.eslint with _ | ⟨f, rest⟩
    · rw [hnil, runESLint_nil] at hlint
      cases hlint
      simp [LintResult.pass] at hfail
    · simp
  have hphases : lintAndFormat env (getStagedFiles env) =
      (t ++ (printErrors env r.errors).1,
        match (printErrors env r.errors).2 with
        | none => Outcome.uncaught
        | some _ => Outcome.exit 1) := by
    unfold lintAndFormat
    simp only [hlen, if_true, hlint, hfail, Bool.not_false]
    rcases printErrors env r.errors with ⟨p, res⟩
    cases res <;> rfl
  rw [main_of_staged env out hdir hrebase hmerge hstaged, hphases]

/-- When the lint step fails, the process ends with status 1. -/
theorem main_status_of_lint_failure (env : Env) (out : String) (t : List Event)
    (r : LintResult)
    (hdir : env.execSync gitDirCmd = some out)
    (hrebase : env.existsSync (env.join [jsTrim out, "rebase-merge"]) = false)
    (hmerge : env.existsSync (env.join [jsTrim out, "MERGE_HEAD"]) = false)
    (hstaged : getStagedFiles env ≠ [])
    (hlint : runESLint env (filterFilesByExtension env (getStagedFiles env)
      SUPPORTED_EXTENSIONS.eslint) = (t, some r))
    (hfail : r.success = false) : (main env).2.status = 1 := by
  rw [main_of_lint_failure env out t r hdir hrebase hmerge hstaged hlint hfail]
  cases (printErrors env r.errors).2 <;> rfl

/-! ## The lint step: findings and exit status -/

/-- C2 as stated fails: the report holds one file record with an
error-severity message under `errorCount: 0`; the findings the specification
describes are that one message, yet `runESLint` returns a pass with no
finding. -/
theorem runESLint_skips_uncounted_error :
    isReport (JSVal.arr uncountedReport) = true ∧
    (specFindings uncountedReport).length = 1 ∧
    ((runESLint (sampleEnv "a.js\n" uncountedText (some (JSVal.arr uncountedReport))
        (some 1) (some 0)) ["a.js"]).2.map fun r => (r.success, r.errors.length)) =
      some (true, 0) := by
  decide

/-- C2, amended: for every lint report that parses into per-file records, the
findings of `runESLint` are exactly the error-severity (severity 2) messages of
the file records whose `errorCount` is above zero, in report order, each
tagged with the record's `filePath` and the message's `line`, `column`,
`message` and `ruleId`; `success` holds exactly when there is none, so a
single error-severity message in a record with a positive `errorCount` forces
`success = false`, and exit status 1 of `main` when the files are the
lint-eligible staged files and no rebase or merge is in progress; and when
every record holding an error-severity message has a positive `errorCount`,
these are the error-severity messages of all records. -/
theorem runESLint_findings_counted (env : Env) (files : List String) (t : List Event)
    (eslintPath : String) (records : List JSVal) (hfiles : files ≠ [])
    (htool : detectTool env "eslint" = (t, some (some eslintPath)))
    (hparse : env.jsonParse (stdoutText
      (env.spawnSync "node" (eslintArgs eslintPath files)).stdout) = some (JSVal.arr records))
    (hshape : isReport (JSVal.arr records) = true) :
    (runESLint env files).2 =
      some { success := (countedFindings records).length == 0,
             errors := countedFindings records } ∧
    ((∃ r ∈ records, hasErrorCount r = true ∧ ∃ m ∈ messagesOf r, isErrorMessage m = true) →
      (runESLint env files).2.map (fun res => res.success) = some false ∧
      ∀ out, env.execSync gitDirCmd = some out →
        env.existsSync (env.join [jsTrim out, "rebase-merge"]) = false →
        env.existsSync (env.join [jsTrim out, "MERGE_HEAD"]) = false →
        files = filterFilesByExtension env (getStagedFiles env) SUPPORTED_EXTENSIONS.eslint →
        (main env).2.status = 1) ∧
    ((∀ r ∈ records, (∃ m ∈ messagesOf r, isErrorMessage m = true) →
        hasErrorCount r = true) →
      countedFindings records = specFindings records) := by
  have hres := runESLint_of_records env files t eslintPath records hfiles htool hparse hshape
  refine ⟨hres, ?_, countedFindings_eq_specFindings records⟩
  rintro ⟨r, hr, hc, m, hm, he⟩
  have hmem := toFinding_mem_countedFindings records r m hr hc hm he
  have hlen : (countedFindings records).length ≠ 0 := by
    intro h0
    rw [List.length_eq_zero.mp h0] at hmem
    exact List.not_mem_nil _ hmem
  have hfalse : ((countedFindings records).length == 0) = false := by simpa using hlen
  refine ⟨by rw [hres]; simp [hlen], ?_⟩
  intro out hdir hrebase hmerge hsub
  have hstaged : getStagedFiles env ≠ [] := by
    intro hnil
    rw [hnil] at hsub
    exact hfiles (by simpa [filterFilesByExtension] using hsub)
  have hlint : runESLint env (filterFilesByExtension env (getStagedFiles env)
      SUPPORTED_EXTENSIONS.eslint) = ((runESLint env files).1,
        some { success := (countedFindings records).length == 0,
               errors := countedFindings records }) := by
    rw [← hsub, ← hres]
  exact main_status_of_lint_failure env out _ _ hdir hrebase hmerge hstaged hlint hfalse

set_option maxRecDepth 20000 in
/-- C2, on a sample run: the lint tool reports one error and one warning for
`a.js` under `errorCount: 1`; `runESLint` fails with exactly one finding. -/
theorem runESLint_findings_counted_witness :
    isReport (JSVal.arr oneErrorReport) = true ∧
    ((runESLint (sampleEnv "a.js\n" oneErrorText (some (JSVal.arr oneErrorReport))
        (some 1) (some 0)) ["a.js"]).2.map fun r => (r.success, r.errors.length)) =
      some (false, 1) ∧
    (runESLint (sampleEnv "a.js\n" oneErrorText (some (JSVal.arr oneErrorReport))
        (some 1) (some 0)) ["a.js"]).2 =
      some { success := (countedFindings oneErrorReport).length == 0,
             errors := countedFindings oneErrorReport } :=
  ⟨by decide, by decide,
   (runESLint_findings_counted
      (sampleEnv "a.js\n" oneErrorText (some (JSVal.arr oneErrorReport)) (some 1) (some 0))
      ["a.js"] [Event.exec toplevelCmd true] "/repo/node_modules/eslint/bin/eslint.js"
      oneErrorReport (by decide) (by decide) rfl (by decide)).1⟩

/-- C1: for every non-empty staged-file list with no rebase or merge in
progress, if `runESLint` on the lint-eligible subset returns a result that is
not a success, the trace of `main` is the two git queries, the trace of
`runESLint` and the output of `printErrors` on the findings, and nothing
else; the process ends with exit status 1; no event of the trace is a
formatter process or a `git add`; and when the findings are those of the data
model (file path, line, column, message, optional rule), what `main` prints
after the lint step is the heading, then for every finding in order the line
`  <relative path>:<line>:<column>` and the line `    <message> (<rule>)`
(without the parenthesis when the rule is missing or empty), then the summary
`<count> error(s) found. Fix them before committing.`, and `main` ends by
`process.exit(1)`. -/
theorem main_blocked_skips_format (env : Env) (out : String) (t : List Event)
    (r : LintResult)
    (hdir : env.execSync gitDirCmd = some out)
    (hrebase : env.existsSync (env.join [jsTrim out, "rebase-merge"]) = false)
    (hmerge : env.existsSync (env.join [jsTrim out, "MERGE_HEAD"]) = false)
    (hstaged : getStagedFiles env ≠ [])
    (hlint : runESLint env (filterFilesByExtension env (getStagedFiles env)
      SUPPORTED_EXTENSIONS.eslint) = (t, some r))
    (hfail : r.success = false) :
    (main env).1 = [Event.exec gitDirCmd true, Event.exec stagedCmd true] ++ t ++
      (printErrors env r.errors).1 ∧
    (main env).2.status = 1 ∧
    (∀ e ∈ (main env).1, isFormatEvent e = false) ∧
    (∀ xs : List LintFinding, r.errors = xs.map LintFinding.asEntry →
      main env =
        ([Event.exec gitDirCmd true, Event.exec stagedCmd true] ++ t ++
          [Event.error "\n❌ Linting errors found:\n"] ++
          (xs.map fun x =>
            [Event.error ("  " ++ env.relative env.cwd x.file_path ++ ":" ++
                toString x.line ++ ":" ++ toString x.column),
             Event.error ("    " ++ x.message ++ " " ++
                (match x.rule_identifier with
                  | some rule => if rule = "" then "" else "(" ++ rule ++ ")"
                  | none => ""))]).flatten ++
          [Event.error ("\n" ++ toString xs.length ++
            " error(s) found. Fix them before committing.\n")],
         Outcome.exit 1)) := by
  have hmain := main_of_lint_failure env out t r hdir hrebase hmerge hstaged hlint hfail
  have htrace : (main env).1 = [Event.exec gitDirCmd true, Event.exec stagedCmd true] ++ t ++
      (printErrors env r.errors).1 := by
    rw [hmain]
    simp
  refine ⟨htrace, ?_, ?_, ?_⟩
  · rw [hmain]
    cases (printErrors env r.errors).2 <;> rfl
  · intro e he
    rw [htrace] at he
    simp only [List.mem_append, List.mem_cons, List.mem_singleton, List.not_mem_nil,
      or_false] at he
    rcases he with ((rfl | rfl) | he) | he
    · rfl
    · rfl
    · have hl := runESLint_no_format env (filterFilesByExtension env (getStagedFiles env)
        SUPPORTED_EXTENSIONS.eslint)
      rw [hlint] at hl
      exact hl e he
    · exact printErrors_no_format env r.errors e he
  · intro xs hxs
    have hall : ∀ f ∈ xs.map LintFinding.asEntry, (findingLines env f).2 = true := by
      intro f hf
      obtain ⟨x, _, rfl⟩ := List.mem_map.mp hf
      rw [findingLines_asEntry]
    have hp : printErrors env r.errors =
        ([Event.error "\n❌ Linting errors found:\n"] ++
          (xs.map fun x =>
            [Event.error ("  " ++ env.relative env.cwd x.file_path ++ ":" ++
                toString x.line ++ ":" ++ toString x.column),
             Event.error ("    " ++ x.message ++ " " ++
                (match x.rule_identifier with
                  | some rule => if rule = "" then "" else "(" ++ rule ++ ")"
                  | none => ""))]).flatten ++
          [Event.error ("\n" ++ toString xs.length ++
            " error(s) found. Fix them before committing.\n")], some ()) := by
      unfold printErrors
      rw [hxs, printFindings_complete env _ hall]
      simp only [summaryLine, List.length_map, List.map_map]
      have hfun : ((fun f => (findingLines env f).1) ∘ LintFinding.asEntry) =
          fun x : LintFinding =>
            [Event.error ("  " ++ env.relative env.cwd x.file_path ++ ":" ++
                toString x.line ++ ":" ++ toString x.column),
             Event.error ("    " ++ x.message ++ " " ++
                (match x.rule_identifier with
                  | some rule => if rule = "" then "" else "(" ++ rule ++ ")"
                  | none => ""))] := by
        funext x
        simp only [Function.comp, findingLines_asEntry]
      rw [hfun]
    rw [hmain, hp]
    simp

set_option maxRecDepth 20000 in
/-- C1, on a sample run (scenario B with a second error and a second,
formattable file): `a.js` and `b.md` are staged and the lint tool reports an
error at `a.js` 3:5 and a parse error without rule at 9:2; the hook prints
both findings and the count 2, exits with code 1, and starts neither the
formatter nor a re-add, although `b.md` is format-eligible. -/
theorem main_blocked_skips_format_witness :
    main (sampleEnv "a.js\nb.md\n" twoErrorsText (some (JSVal.arr twoErrorsReport))
        (some 1) (some 0)) =
      ([Event.exec gitDirCmd true, Event.exec stagedCmd true, Event.exec toplevelCmd true,
        Event.log "🔍 Linting staged files...",
        Event.spawn "node" ["/repo/node_modules/eslint/bin/eslint.js", "--format", "json", "a.js"],
        Event.error "\n❌ Linting errors found:\n",
        Event.error "  a.js:3:5",
        Event.error "    Unexpected var (no-var)",
        Event.error "  a.js:9:2",
        Event.error "    Parsing error: Unexpected token ",
        Event.error "\n2 error(s) found. Fix them before committing.\n"],
       Outcome.exit 1) ∧
    filterFilesByExtension (sampleEnv "a.js\nb.md\n" twoErrorsText
        (some (JSVal.arr twoErrorsReport)) (some 1) (some 0)) ["a.js", "b.md"]
        SUPPORTED_EXTENSIONS.prettier = ["a.js", "b.md"] ∧
    ∀ e ∈ (main (sampleEnv "a.js\nb.md\n" twoErrorsText (some (JSVal.arr twoErrorsReport))
        (some 1) (some 0))).1, isFormatEvent e = false :=
  ⟨((main_blocked_skips_format
      (sampleEnv "a.js\nb.md\n" twoErrorsText (some (JSVal.arr twoErrorsReport)) (some 1)
        (some 0))
      ".git\n" [Event.exec toplevelCmd true, Event.log "🔍 Linting staged files...",
        Event.spawn "node" ["/repo/node_modules/eslint/bin/eslint.js", "--format", "json", "a.js"]]
      { success := false, errors := twoErrorsFindings.map LintFinding.asEntry }
      rfl (by decide) (by decide) (by decide) rfl rfl).2.2.2 twoErrorsFindings rfl).trans
      (by decide),
   by decide,
   (main_blocked_skips_format
      (sampleEnv "a.js\nb.md\n" twoErrorsText (some (JSVal.arr twoErrorsReport)) (some 1)
        (some 0))
      ".git\n" [Event.exec toplevelCmd true, Event.log "🔍 Linting staged files...",
        Event.spawn "node" ["/repo/node_modules/eslint/bin/eslint.js", "--format", "json", "a.js"]]
      { success := false, errors := twoErrorsFindings.map LintFinding.asEntry }
      rfl (by decide) (by decide) (by decide) rfl rfl).2.2.1⟩

/-! ## The orchestrator: exit codes -/

/-- The result of the `try` block passes exactly when it holds no finding. -/
theorem lintTry_success_iff (env : Env) (stdout : Option String) (res : LintResult)
    (h : lintTry env stdout = some res) : res.success = true ↔ res.errors = [] := by
  unfold lintTry at h
  cases hp : env.jsonParse (stdoutText stdout) with
  | none => simp [hp] at h
  | some output =>
    simp only [hp, reduceReport] at h
    cases hf : output.forEachItems with
    | none => simp [hf] at h
    | some files =>
      cases hr : reportFindings env files with
      | none => simp [hf, hr] at h
      | some errors =>
        simp only [hf, hr, Option.some.injEq] at h
        subst h
        simp [List.length_eq_zero]

/-- Whatever `runESLint` returns passes exactly when it holds no finding. -/
theorem runESLint_success_iff (env : Env) (files : List String) (res : LintResult)
    (h : (runESLint env files).2 = some res) : res.success = true ↔ res.errors = [] := by
  have hpass : LintResult.pass.success = true ↔ LintResult.pass.errors = [] := by
    simp [LintResult.pass]
  unfold runESLint at h
  by_cases h0 : files.length = 0
  · simp only [h0, if_true, Option.some.injEq] at h
    subst h
    exact hpass
  · rw [if_neg h0] at h
    rcases hd : detectTool env "eslint" with ⟨t, found⟩
    rw [hd] at h
    cases found with
    | none => simp at h
    | some found =>
      cases found with
      | none =>
        simp only [Option.some.injEq] at h
        subst h
        exact hpass
      | some eslintPath =>
        have hpath := detectTool_path_ne_empty env "eslint" t eslintPath (by decide) hd
        simp only [hpath, if_false] at h
        cases hl : lintTry env (env.spawnSync "node" (eslintArgs eslintPath files)).stdout with
        | none =>
          simp only [hl, Option.some.injEq] at h
          subst h
          exact hpass
        | some r =>
          simp only [hl, Option.some.injEq] at h
          subst h
          exact lintTry_success_iff env _ r hl

/-- The format phase ends by `process.exit(0)` unless an exception escapes. -/
theorem formatPhase_outcome (env : Env) (formatFiles : List String) :
    (formatPhase env formatFiles).2 = Outcome.exit 0 ∨
      (formatPhase env formatFiles).2 = Outcome.uncaught := by
  unfold formatPhase
  by_cases h : formatFiles.length > 0
  · rw [if_pos h]
    rcases runPrettier env formatFiles with ⟨t, res⟩
    cases res
    · exact Or.inr rfl
    · exact Or.inl rfl
  · rw [if_neg h]
    exact Or.inl rfl

/-- The phases of `main` end with code 0, with code 1 after findings, or by an
uncaught exception. -/
theorem lintAndFormat_outcome (env : Env) :
    (lintAndFormat env (getStagedFiles env)).2 = Outcome.exit 0 ∨
    (lintAndFormat env (getStagedFiles env)).2 = Outcome.uncaught ∨
    ((lintAndFormat env (getStagedFiles env)).2 = Outcome.exit 1 ∧ lintFindings env ≠ []) := by
  unfold lintAndFormat lintFindings
  by_cases hlen : (filterFilesByExtension env (getStagedFiles env)
      SUPPORTED_EXTENSIONS.eslint).length > 0
  · simp only [hlen, if_true]
    have hiff := runESLint_success_iff env (filterFilesByExtension env (getStagedFiles env)
      SUPPORTED_EXTENSIONS.eslint)
    rcases hrun : runESLint env (filterFilesByExtension env (getStagedFiles env)
      SUPPORTED_EXTENSIONS.eslint) with ⟨t, res⟩
    rw [hrun] at hiff
    cases res with
    | none => exact Or.inr (Or.inl rfl)
    | some r =>
      by_cases hs : r.success = true
      · simp only [hs, Bool.not_true]
        rcases formatPhase_outcome env (filterFilesByExtension env (getStagedFiles env)
          SUPPORTED_EXTENSIONS.prettier) with h | h
        · exact Or.inl h
        · exact Or.inr (Or.inl h)
      · have hne : r.errors ≠ [] := fun hnil => hs ((hiff r rfl).2 hnil)
        have hs' : r.success = false := by simpa using hs
        simp only [hs', Bool.not_false, if_true]
        rcases printErrors env r.errors with ⟨p, res⟩
        cases res
        · exact Or.inr (Or.inl rfl)
        · exact Or.inr (Or.inr ⟨rfl, hne⟩)
  · simp only [hlen, if_false]
    rcases formatPhase_outcome env (filterFilesByExtension env (getStagedFiles env)
      SUPPORTED_EXTENSIONS.prettier) with h | h
    · exact Or.inl h
    · exact Or.inr (Or.inl h)

/-- How `main` ends: with code 0, by an uncaught exception, or with code 1
after the lint step returned findings. -/
theorem main_outcome (env : Env) :
    (main env).2 = Outcome.exit 0 ∨ (main env).2 = Outcome.uncaught ∨
    ((main env).2 = Outcome.exit 1 ∧ lintFindings env ≠ []) := by
  cases hdir : env.execSync gitDirCmd with
  | none =>
    have hm : (main env).2 = Outcome.uncaught := by simp [main, hdir]
    exact Or.inr (Or.inl hm)
  | some out =>
    by_cases hmark : (env.existsSync (env.join [jsTrim out, "rebase-merge"]) ||
        env.existsSync (env.join [jsTrim out, "MERGE_HEAD"])) = true
    · have hm : (main env).2 = Outcome.exit 0 := by
        unfold main
        simp only [hdir, hmark, if_true]
      exact Or.inl hm
    · by_cases hlen : (getStagedFiles env).length = 0
      · have hm : (main env).2 = Outcome.exit 0 := by
          unfold main
          simp only [hdir, hmark, hlen, if_true, if_false]
          rfl
        exact Or.inl hm
      · have hm : (main env).2 = (lintAndFormat env (getStagedFiles env)).2 := by
          unfold main
          simp only [hdir, hmark, hlen, if_false]
          rfl
        rw [hm]
        exact lintAndFormat_outcome env

/-- The exit status of the hook is 0 or 1, and unless an exception escapes
`main`, it is 1 only after the lint step returned findings. -/
theorem main_status (env : Env) :
    ((main env).2.status = 0 ∨ (main env).2.status = 1) ∧
    ((main env).2 ≠ Outcome.uncaught → (main env).2.status = 1 → lintFindings env ≠ []) := by
  rcases main_outcome env with h | h | ⟨h, hne⟩
  · rw [h]
    exact ⟨Or.inl rfl, fun _ h1 => absurd h1 (by decide)⟩
  · rw [h]
    exact ⟨Or.inr rfl, fun hu _ => absurd rfl hu⟩
  · rw [h]
    exact ⟨Or.inr rfl, fun _ _ => hne⟩

/-- Once the top-level query answers, no exception escapes `detectTool`. -/
theorem detectTool_returns (env : Env) (toolName top : String)
    (htop : env.execSync toplevelCmd = some top) : (detectTool env toolName).2 ≠ none := by
  unfold detectTool
  rw [htop]
  cases h2 : localTool env (env.join [jsTrim top, "node_modules", toolName]) toolName with
  | some p => simp [h2]
  | none => cases h3 : env.execSync (whichCmd env toolName) <;> simp [h2, h3]

/-- Once the top-level query answers, no exception escapes `runESLint`. -/
theorem runESLint_returns (env : Env) (files : List String) (top : String)
    (htop : env.execSync toplevelCmd = some top) : (runESLint env files).2 ≠ none := by
  have hd := detectTool_returns env "eslint" top htop
  unfold runESLint
  by_cases h0 : files.length = 0
  · simp [h0]
  · rw [if_neg h0]
    rcases hdt : detectTool env "eslint" with ⟨t, found⟩
    rw [hdt] at hd
    cases found with
    | none => exact absurd rfl hd
    | some found =>
      cases found with
      | none => simp
      | some eslintPath =>
        by_cases hp : eslintPath = ""
        · simp [hp]
        · simp only [hp, if_false]
          cases lintTry env (env.spawnSync "node" (eslintArgs eslintPath files)).stdout <;> simp

/-- Once the top-level query answers, no exception escapes `runPrettier`. -/
theorem runPrettier_returns (env : Env) (files : List String) (top : String)
    (htop : env.execSync toplevelCmd = some top) : (runPrettier env files).2 ≠ none := by
  have hd := detectTool_returns env "prettier" top htop
  unfold runPrettier
  by_cases h0 : files.length = 0
  · simp [h0]
  · rw [if_neg h0]
    rcases hdt : detectTool env "prettier" with ⟨t, found⟩
    rw [hdt] at hd
    cases found with
    | none => exact absurd rfl hd
    | some found =>
      cases found with
      | none => simp
      | some prettierPath =>
        by_cases hp : prettierPath = ""
        · simp [hp]
        · simp only [hp, if_false]
          by_cases hz : (env.spawnSync "npx" (prettierArgs files)).status = some 0 <;> simp [hz]

/-- Once the top-level query answers, the format phase ends with code 0. -/
theorem formatPhase_exit_zero (env : Env) (formatFiles : List String) (top : String)
    (htop : env.execSync toplevelCmd = some top) :
    (formatPhase env formatFiles).2 = Outcome.exit 0 := by
  have hr := runPrettier_returns env formatFiles top htop
  unfold formatPhase
  by_cases h : formatFiles.length > 0
  · rw [if_pos h]
    rcases hrun : runPrettier env formatFiles with ⟨t, res⟩
    rw [hrun] at hr
    cases res with
    | none => exact absurd rfl hr
    | some u => rfl
  · rw [if_neg h]

/-- The exit code of the hook when both `git rev-parse` queries answer
and every finding can be rendered: 1 when no rebase or merge is in progress
and the lint step returned findings, 0 in every other case (rebase or merge,
nothing staged, a failed staged-file query, lint passed or skipped). -/
theorem main_exit_code_of_git_answers (env : Env) (out top : String)
    (hdir : env.execSync gitDirCmd = some out)
    (htop : env.execSync toplevelCmd = some top)
    (hprint : ∀ f ∈ lintFindings env, (findingLines env f).2 = true) :
    (main env).2 = Outcome.exit
      (if (env.existsSync (env.join [jsTrim out, "rebase-merge"]) ||
            env.existsSync (env.join [jsTrim out, "MERGE_HEAD"]) ||
            (lintFindings env).isEmpty) = true then 0 else 1) := by
  by_cases hmark : (env.existsSync (env.join [jsTrim out, "rebase-merge"]) ||
      env.existsSync (env.join [jsTrim out, "MERGE_HEAD"])) = true
  · have hm : (main env).2 = Outcome.exit 0 := by
      unfold main
      simp only [hdir, hmark, if_true]
    rw [hm]
    simp [hmark]
  · by_cases hlen : (getStagedFiles env).length = 0
    · have hm : (main env).2 = Outcome.exit 0 := by
        unfold main
        simp only [hdir, hmark, hlen, if_true, if_false]
        rfl
      have hnone : lintFindings env = [] := by
        unfold lintFindings
        rw [List.length_eq_zero.mp hlen]
        simp [filterFilesByExtension, runESLint_nil, LintResult.pass]
      rw [hm]
      simp [hnone]
    · have hm : (main env).2 = (lintAndFormat env (getStagedFiles env)).2 := by
        unfold main
        simp only [hdir, hmark, hlen, if_false]
        rfl
      rw [hm]
      have hret := runESLint_returns env (filterFilesByExtension env (getStagedFiles env)
        SUPPORTED_EXTENSIONS.eslint) top htop
      have hiff := runESLint_success_iff env (filterFilesByExtension env (getStagedFiles env)
        SUPPORTED_EXTENSIONS.eslint)
      have hfmt := formatPhase_exit_zero env (filterFilesByExtension env (getStagedFiles env)
        SUPPORTED_EXTENSIONS.prettier) top htop
      unfold lintFindings at hprint ⊢
      unfold lintAndFormat
      by_cases hl : (filterFilesByExtension env (getStagedFiles env)
          SUPPORTED_EXTENSIONS.eslint).length > 0
      · simp only [hl, if_true]
        rcases hrun : runESLint env (filterFilesByExtension env (getStagedFiles env)
          SUPPORTED_EXTENSIONS.eslint) with ⟨t, res⟩
        rw [hrun] at hret hiff hprint
        cases res with
        | none => exact absurd rfl hret
        | some r =>
          by_cases hs : r.success = true
          · have hnil : r.errors = [] := (hiff r rfl).1 hs
            simp only [hs, Bool.not_true, hnil, hmark]
            simpa using hfmt
          · have hne : r.errors ≠ [] := fun hnil => hs ((hiff r rfl).2 hnil)
            have hs' : r.success = false := by simpa using hs
            have hp : printErrors env r.errors =
                ([Event.error "\n❌ Linting errors found:\n"] ++
                  (r.errors.map fun f => (findingLines env f).1).flatten ++
                  [Event.error (summaryLine r.errors)], some ()) := by
              unfold printErrors
              rw [printFindings_complete env r.errors hprint]
            simp [hs', hp, hne, hmark]
      · have hnil : filterFilesByExtension env (getStagedFiles env)
            SUPPORTED_EXTENSIONS.eslint = [] := by
          apply List.length_eq_zero.mp
          omega
        simp only [hl, if_false, hnil, runESLint_nil, LintResult.pass, hmark]
        simpa using hfmt

/-- C8 at the failing input: outside a git repository every git command
fails; the unguarded `git rev-parse --git-dir` of `main` throws, so the
process ends on an uncaught exception with status 1, although the staged-file
query would have degraded to the empty list and the lint step has no
finding. -/
theorem main_uncaught_outside_repository :
    main outsideRepoEnv = ([Event.exec gitDirCmd false], Outcome.uncaught) ∧
    (main outsideRepoEnv).2.status = 1 ∧
    getStagedFiles outsideRepoEnv = [] ∧
    (lintFindings outsideRepoEnv).length = 0 := by
  decide

/-! ## The installer -/

theorem includesChars_append_left (pat pre rest : List Char)
    (h : includesChars pat rest = true) : includesChars pat (pre ++ rest) = true := by
  induction pre with
  | nil => exact h
  | cons c cs ih => simp [includesChars, ih]

/-- The hook body carries the marker. -/
theorem jsIncludes_HOOK_SCRIPT : jsIncludes HOOK_SCRIPT "auto-format-staged" = true := by
  decide

/-- Any text to which the hook body was appended carries the marker. -/
theorem jsIncludes_append_HOOK_SCRIPT (content : String) :
    jsIncludes (content ++ ("\n" ++ HOOK_SCRIPT)) "auto-format-staged" = true := by
  have h := jsIncludes_HOOK_SCRIPT
  unfold jsIncludes at h ⊢
  have hl : (content ++ ("\n" ++ HOOK_SCRIPT)).toList =
      (content.toList ++ "\n".toList) ++ HOOK_SCRIPT.toList := by
    simp [String.toList, String.data_append]
  rw [hl]
  exact includesChars_append_left _ _ _ h

theorem backupPathOf_ne_hookPathOf (e : InstallEnv) (out : String) :
    backupPathOf e out ≠ hookPathOf e out := by
  intro h
  have hlen := congrArg String.length h
  have h8 : ".backup-".length = 8 := by decide
  simp only [backupPathOf, String.length_append, h8] at hlen
  omega

/-- A path that does not hold a directory is not a searchable directory. -/
theorem ne_of_searchable (root : Bool) (fs : FileSys) (parent p : String)
    (hs : searchable root fs parent = true) (hp : ∀ mode cls, fs p ≠ some (FsNode.dir mode cls)) :
    p ≠ parent := by
  intro h
  subst h
  unfold searchable at hs
  cases hf : fs p with
  | none => simp [hf] at hs
  | some node =>
    cases node with
    | file c m cl => simp [hf] at hs
    | dir m cl => exact hp m cl hf

/-- Writing an entry other than the directory keeps the directory searchable. -/
theorem searchable_update (root : Bool) (fs : FileSys) (parent p : String)
    (node : Option FsNode) (hs : searchable root fs parent = true) (hne : p ≠ parent) :
    searchable root (Function.update fs p node) parent = true := by
  unfold searchable at hs ⊢
  rw [Function.update_noteq (Ne.symm hne)]
  exact hs

/-- What a successful `fsWrite` did: in a searchable directory, it replaced
the content of a writable file or created the file. -/
theorem fsWrite_some (root : Bool) (fs fs' : FileSys) (parent p : String)
    (update : Option String → String) (createMode : Nat)
    (h : fsWrite root fs parent p update createMode = some fs') :
    searchable root fs parent = true ∧ p ≠ parent ∧
    ((∃ content mode cls, fs p = some (FsNode.file content mode cls) ∧
        fs' = Function.update fs p (some (FsNode.file (update (some content)) mode cls))) ∨
     (fs p = none ∧
        fs' = Function.update fs p
          (some (FsNode.file (update none) createMode PermClass.owner)))) := by
  unfold fsWrite at h
  by_cases hs : searchable root fs parent = true
  · rw [if_pos hs] at h
    cases hf : fs p with
    | none =>
      rw [hf] at h
      by_cases hc : creatable root fs parent = true
      · simp only [hc, if_true, Option.some.injEq] at h
        refine ⟨hs, ne_of_searchable root fs parent p hs (by simp [hf]), Or.inr ⟨rfl, h.symm⟩⟩
      · simp [hc] at h
    | some node =>
      cases node with
      | dir m cl => simp [hf] at h
      | file content mode cls =>
        rw [hf] at h
        by_cases hw : permits root mode cls 2 = true
        · simp only [hw, if_true, Option.some.injEq] at h
          exact ⟨hs, ne_of_searchable root fs parent p hs (by simp [hf]),
            Or.inl ⟨content, mode, cls, rfl, h.symm⟩⟩
        · simp [hw] at h
  · simp [hs] at h

/-- What a successful `fsRead` read: a readable file of a searchable
directory. -/
theorem fsRead_some (root : Bool) (fs : FileSys) (parent p content : String)
    (h : fsRead root fs parent p = some content) :
    searchable root fs parent = true ∧
    ∃ mode cls, fs p = some (FsNode.file content mode cls) ∧ permits root mode cls 4 = true := by
  unfold fsRead at h
  by_cases hs : searchable root fs parent = true
  · rw [if_pos hs] at h
    cases hf : fs p with
    | none => simp [hf] at h
    | some node =>
      cases node with
      | dir m cl => simp [hf] at h
      | file c mode cls =>
        rw [hf] at h
        by_cases hr : permits root mode cls 4 = true
        · simp only [hr, if_true, Option.some.injEq] at h
          subst h
          exact ⟨hs, mode, cls, rfl, hr⟩
        · simp [hr] at h
  · simp [hs] at h

/-- What a successful `fsCopy` did: it wrote a file at `dest`, which is not
the directory. -/
theorem fsCopy_some (root : Bool) (fs fs' : FileSys) (parent src dest : String)
    (h : fsCopy root fs parent src dest = some fs') :
    dest ≠ parent ∧ ∃ node, fs' = Function.update fs dest (some node) := by
  unfold fsCopy at h
  by_cases hs : searchable root fs parent = true
  · rw [if_pos hs] at h
    cases hf : fs src with
    | none => simp [hf] at h
    | some node =>
      cases node with
      | dir m cl => simp [hf] at h
      | file content mode cls =>
        rw [hf] at h
        by_cases hr : permits root mode cls 4 = true
        · simp only [hr, if_true] at h
          cases hd : fs dest with
          | none =>
            rw [hd] at h
            by_cases hc : creatable root fs parent = true
            · simp only [hc, if_true, Option.some.injEq] at h
              exact ⟨ne_of_searchable root fs parent dest hs (by simp [hd]), _, h.symm⟩
            · simp [hc] at h
          | some dnode =>
            cases dnode with
            | dir m cl => simp [hd] at h
            | file dc dm dcl =>
              rw [hd] at h
              by_cases hw : (permits root dm dcl 2 && (root || dcl == PermClass.owner)) = true
              · simp only [hw, if_true, Option.some.injEq] at h
                exact ⟨ne_of_searchable root fs parent dest hs (by simp [hd]), _, h.symm⟩
              · simp [hw] at h
        · simp [hr] at h
  · simp [hs] at h

/-- A run on a repository whose readable hook already carries the marker
reports so and writes nothing. -/
theorem installHook_already_installed (e : InstallEnv) (fs : FileSys) (out content : String)
    (mode : Nat) (cls : PermClass) (hroot : findGitRoot e = some out)
    (hsearch : searchable e.root fs (hooksDirOf e out) = true)
    (hhook : fs (hookPathOf e out) = some (FsNode.file content mode cls))
    (hread : permits e.root mode cls 4 = true)
    (hmark : jsIncludes content "auto-format-staged" = true) :
    installHook e fs =
      { trace := [Event.log "🔧 Installing auto-format-staged...\n",
                  Event.exec toplevelCmd true, Event.log "✅ Hook already installed!"],
        outcome := InstallOutcome.returned, fs := fs } := by
  have hdir : (fs (hooksDirOf e out)).isSome = true := by
    unfold searchable at hsearch
    cases hf : fs (hooksDirOf e out) with
    | none => simp [hf] at hsearch
    | some node => rfl
  have hex : fsExists e.root fs (hooksDirOf e out) (hookPathOf e out) = true := by
    simp [fsExists, hsearch, hhook]
  have hrd : fsRead e.root fs (hooksDirOf e out) (hookPathOf e out) = some content := by
    simp [fsRead, hsearch, hhook, hread]
  unfold installHook
  simp [hroot, hdir, hex, hrd, hmark]

/-- After a run that returned, the hooks directory can be searched and the
hook file is a readable file that carries the marker. -/
theorem installHook_returned_state (e : InstallEnv) (fs : FileSys) (out : String)
    (hroot : findGitRoot e = some out)
    (hret : (installHook e fs).outcome = InstallOutcome.returned) :
    searchable e.root (installHook e fs).fs (hooksDirOf e out) = true ∧
    ∃ content mode cls,
      (installHook e fs).fs (hookPathOf e out) = some (FsNode.file content mode cls) ∧
      permits e.root mode cls 4 = true ∧
      jsIncludes content "auto-format-staged" = true := by
  have hne := backupPathOf_ne_hookPathOf e out
  by_cases hdir : (fs (hooksDirOf e out)).isSome = true
  swap
  · have hrun : (installHook e fs).outcome = InstallOutcome.exit 1 := by
      unfold installHook
      simp [hroot, hdir]
    rw [hrun] at hret
    cases hret
  by_cases hex : fsExists e.root fs (hooksDirOf e out) (hookPathOf e out) = true
  · cases hrd : fsRead e.root fs (hooksDirOf e out) (hookPathOf e out) with
    | none =>
      have hrun : (installHook e fs).outcome = InstallOutcome.uncaught := by
        unfold installHook
        simp [hroot, hdir, hex, hrd]
      rw [hrun] at hret
      cases hret
    | some existingHook =>
      obtain ⟨hsearch, mode, cls, hfile, hread⟩ := fsRead_some _ _ _ _ _ hrd
      by_cases hmark : jsIncludes existingHook "auto-format-staged" = true
      · rw [installHook_already_installed e fs out existingHook mode cls hroot hsearch hfile
          hread hmark]
        exact ⟨hsearch, existingHook, mode, cls, hfile, hread, hmark⟩
      · cases hcp : fsCopy e.root fs (hooksDirOf e out) (hookPathOf e out)
            (backupPathOf e out) with
        | none =>
          have hrun : (installHook e fs).outcome = InstallOutcome.uncaught := by
            unfold installHook
            simp [hroot, hdir, hex, hrd, hmark, hcp]
          rw [hrun] at hret
          cases hret
        | some fs1 =>
          cases hwr : fsWrite e.root fs1 (hooksDirOf e out) (hookPathOf e out)
              (fun old => old.getD "" ++ ("\n" ++ HOOK_SCRIPT)) e.createMode with
          | none =>
            have hrun : (installHook e fs).outcome = InstallOutcome.uncaught := by
              unfold installHook
              simp [hroot, hdir, hex, hrd, hmark, hcp, hwr]
            rw [hrun] at hret
            cases hret
          | some fs2 =>
            have hrun : (installHook e fs).fs = fs2 := by
              unfold installHook
              simp [hroot, hdir, hex, hrd, hmark, hcp, hwr]
            obtain ⟨_, node, hfs1⟩ := fsCopy_some _ _ _ _ _ _ hcp
            have hstill : fs1 (hookPathOf e out) =
                some (FsNode.file existingHook mode cls) := by
              rw [hfs1, Function.update_noteq (Ne.symm hne), hfile]
            obtain ⟨hsearch1, hpne, hcase⟩ := fsWrite_some _ _ _ _ _ _ _ hwr
            rcases hcase with ⟨c, m, cl, hc, hfs2⟩ | ⟨hnone, _⟩
            · rw [hstill] at hc
              cases hc
              rw [hrun, hfs2]
              refine ⟨searchable_update _ _ _ _ _ hsearch1 hpne,
                existingHook ++ ("\n" ++ HOOK_SCRIPT), mode, cls, by simp, hread,
                jsIncludes_append_HOOK_SCRIPT existingHook⟩
            · rw [hstill] at hnone
              cases hnone
  · cases hwr : fsWrite e.root fs (hooksDirOf e out) (hookPathOf e out)
        (fun _ => HOOK_SCRIPT) e.createMode with
    | none =>
      have hrun : (installHook e fs).outcome = InstallOutcome.uncaught := by
        unfold installHook
        simp [hroot, hdir, hex, hwr]
      rw [hrun] at hret
      cases hret
    | some fs1 =>
      obtain ⟨hsearch, hpne, hcase⟩ := fsWrite_some _ _ _ _ _ _ _ hwr
      have hfs1 : fs1 = Function.update fs (hookPathOf e out)
          (some (FsNode.file HOOK_SCRIPT e.createMode PermClass.owner)) := by
        rcases hcase with ⟨c, m, cl, hc, _⟩ | ⟨_, h⟩
        · exfalso
          apply hex
          simp [fsExists, hsearch, hc]
        · exact h
      have hsearch1 : searchable e.root fs1 (hooksDirOf e out) = true := by
        rw [hfs1]
        exact searchable_update _ _ _ _ _ hsearch hpne
      have hch : fsChmod e.root fs1 (hooksDirOf e out) (hookPathOf e out) 0o755 =
          some (Function.update fs1 (hookPathOf e out)
            (some (FsNode.file HOOK_SCRIPT 0o755 PermClass.owner))) := by
        have hat : fs1 (hookPathOf e out) =
            some (FsNode.file HOOK_SCRIPT e.createMode PermClass.owner) := by
          rw [hfs1]
          simp
        simp [fsChmod, hsearch1, hat]
      have hrun : (installHook e fs).fs = Function.update fs1 (hookPathOf e out)
          (some (FsNode.file HOOK_SCRIPT 0o755 PermClass.owner)) := by
        unfold installHook
        simp [hroot, hdir, hex, hwr, hch]
      rw [hrun]
      refine ⟨searchable_update _ _ _ _ _ hsearch1 hpne, HOOK_SCRIPT, 0o755,
        PermClass.owner, by simp, ?_, jsIncludes_HOOK_SCRIPT⟩
      cases e.root <;> decide

/-- A run returns on a repository whose hooks directory the user may search
and create files in, when the hook is absent, or is a readable file that
carries the marker, or is a readable and writable file and nothing is at the
backup path. -/
theorem installHook_returns (e : InstallEnv) (fs : FileSys) (out : String)
    (hroot : findGitRoot e = some out)
    (hsearch : searchable e.root fs (hooksDirOf e out) = true)
    (hcreate : creatable e.root fs (hooksDirOf e out) = true)
    (hhook : fs (hookPathOf e out) = none ∨
      ∃ content mode cls, fs (hookPathOf e out) = some (FsNode.file content mode cls) ∧
        permits e.root mode cls 4 = true ∧
        (jsIncludes content "auto-format-staged" = true ∨
          (permits e.root mode cls 2 = true ∧ fs (backupPathOf e out) = none))) :
    (installHook e fs).outcome = InstallOutcome.returned := by
  have hne := backupPathOf_ne_hookPathOf e out
  have hdir : (fs (hooksDirOf e out)).isSome = true := by
    unfold searchable at hsearch
    cases hf : fs (hooksDirOf e out) with
    | none => simp [hf] at hsearch
    | some node => rfl
  rcases hhook with hnone | ⟨content, mode, cls, hfile, hread, hrest⟩
  · have hpne : hookPathOf e out ≠ hooksDirOf e out :=
      ne_of_searchable _ _ _ _ hsearch (by simp [hnone])
    have hex : fsExists e.root fs (hooksDirOf e out) (hookPathOf e out) = false := by
      simp [fsExists, hnone]
    have hwr : fsWrite e.root fs (hooksDirOf e out) (hookPathOf e out)
        (fun _ => HOOK_SCRIPT) e.createMode =
        some (Function.update fs (hookPathOf e out)
          (some (FsNode.file HOOK_SCRIPT e.createMode PermClass.owner))) := by
      simp [fsWrite, hsearch, hnone, hcreate]
    have hch : fsChmod e.root (Function.update fs (hookPathOf e out)
          (some (FsNode.file HOOK_SCRIPT e.createMode PermClass.owner)))
        (hooksDirOf e out) (hookPathOf e out) 0o755 =
        some (Function.update (Function.update fs (hookPathOf e out)
          (some (FsNode.file HOOK_SCRIPT e.createMode PermClass.owner))) (hookPathOf e out)
          (some (FsNode.file HOOK_SCRIPT 0o755 PermClass.owner))) := by
      simp [fsChmod, searchable_update _ _ _ _ _ hsearch hpne]
    unfold installHook
    simp [hroot, hdir, hex, hwr, hch]
  · rcases hrest with hmark | ⟨hwrite, hback⟩
    · rw [installHook_already_installed e fs out content mode cls hroot hsearch hfile hread
        hmark]
    · by_cases hm : jsIncludes content "auto-format-staged" = true
      · rw [installHook_already_installed e fs out content mode cls hroot hsearch hfile hread
          hm]
      have hmark : jsIncludes content "auto-format-staged" = false := by simpa using hm
      have hbne : backupPathOf e out ≠ hooksDirOf e out :=
        ne_of_searchable _ _ _ _ hsearch (by simp [hback])
      have hex : fsExists e.root fs (hooksDirOf e out) (hookPathOf e out) = true := by
        simp [fsExists, hsearch, hfile]
      have hrd : fsRead e.root fs (hooksDirOf e out) (hookPathOf e out) = some content := by
        simp [fsRead, hsearch, hfile, hread]
      have hcp : fsCopy e.root fs (hooksDirOf e out) (hookPathOf e out) (backupPathOf e out) =
          some (Function.update fs (backupPathOf e out)
            (some (FsNode.file content mode PermClass.owner))) := by
        simp [fsCopy, hsearch, hfile, hread, hback, hcreate]
      have hstill : Function.update fs (backupPathOf e out)
          (some (FsNode.file content mode PermClass.owner)) (hookPathOf e out) =
          some (FsNode.file content mode cls) := by
        rw [Function.update_noteq (Ne.symm hne), hfile]
      have hwr : fsWrite e.root (Function.update fs (backupPathOf e out)
            (some (FsNode.file content mode PermClass.owner)))
          (hooksDirOf e out) (hookPathOf e out)
          (fun old => old.getD "" ++ ("\n" ++ HOOK_SCRIPT)) e.createMode =
          some (Function.update (Function.update fs (backupPathOf e out)
            (some (FsNode.file content mode PermClass.owner))) (hookPathOf e out)
            (some (FsNode.file (content ++ ("\n" ++ HOOK_SCRIPT)) mode cls))) := by
        simp [fsWrite, searchable_update _ _ _ _ _ hsearch hbne, hstill, hwrite]
      unfold installHook
      simp [hroot, hdir, hex, hrd, hmark, hcp, hwr]

/-- C10 as stated fails: the repository has a hooks directory and a
different pre-commit hook that is executable but read-only for the installing
user. The first run copies it to a backup and then `appendFileSync` throws;
the hook is left without the marker, so the second run does not take the
"already installed" branch: it makes a further backup and throws again. -/
theorem installHook_readonly_hook_backs_up_again :
    foreignHookFs 0o555 "/repo/.git/hooks" = some (FsNode.dir 0o755 PermClass.owner) ∧
    foreignHookFs 0o555 "/repo/.git/hooks/pre-commit" =
      some (FsNode.file "#!/bin/sh\nnpm test\n" 0o555 PermClass.owner) ∧
    (installHook (sampleInstallEnv 1000) (foreignHookFs 0o555)).outcome =
      InstallOutcome.uncaught ∧
    (installHook (sampleInstallEnv 1000) (foreignHookFs 0o555)).fs
        "/repo/.git/hooks/pre-commit.backup-2000" = none ∧
    (installHook (sampleInstallEnv 2000)
        (installHook (sampleInstallEnv 1000) (foreignHookFs 0o555)).fs).trace =
      [Event.log "🔧 Installing auto-format-staged...\n", Event.exec toplevelCmd true,
       Event.log "📦 Backed up existing hook to: pre-commit.backup-2000"] ∧
    (installHook (sampleInstallEnv 2000)
        (installHook (sampleInstallEnv 1000) (foreignHookFs 0o555)).fs).outcome =
      InstallOutcome.uncaught ∧
    (installHook (sampleInstallEnv 2000)
        (installHook (sampleInstallEnv 1000) (foreignHookFs 0o555)).fs).fs
        "/repo/.git/hooks/pre-commit.backup-2000" =
      some (FsNode.file "#!/bin/sh\nnpm test\n" 0o555 PermClass.owner) := by
  decide

/-- C10, amended: the installer is idempotent on the hook file whenever the
first run completes. For every repository state, if a run of `installHook`
returns (the hooks directory exists and no filesystem call threw: the hook
was absent and could be created, or already carried the marker, or was a
different hook that could be read, backed up and appended to), then a second
run in the same repository by the same user, at any later time, takes the
"already installed" branch and leaves the whole filesystem as the first run
left it: the pre-commit file is unchanged and no further backup file is
created. -/
theorem installHook_second_run_unchanged (e₁ e₂ : InstallEnv) (fs : FileSys) (out : String)
    (hroot₁ : findGitRoot e₁ = some out) (hroot₂ : findGitRoot e₂ = some out)
    (hjoin : e₂.join = e₁.join) (huser : e₂.root = e₁.root)
    (hret : (installHook e₁ fs).outcome = InstallOutcome.returned) :
    (installHook e₂ (installHook e₁ fs).fs).trace =
      [Event.log "🔧 Installing auto-format-staged...\n", Event.exec toplevelCmd true,
       Event.log "✅ Hook already installed!"] ∧
    (installHook e₂ (installHook e₁ fs).fs).outcome = InstallOutcome.returned ∧
    (installHook e₂ (installHook e₁ fs).fs).fs = (installHook e₁ fs).fs := by
  obtain ⟨hsearch, content, mode, cls, hfile, hread, hmark⟩ :=
    installHook_returned_state e₁ fs out hroot₁ hret
  have hd : hooksDirOf e₂ out = hooksDirOf e₁ out := by simp [hooksDirOf, hjoin]
  have hp : hookPathOf e₂ out = hookPathOf e₁ out := by simp [hookPathOf, hd, hjoin]
  have hsecond := installHook_already_installed e₂ (installHook e₁ fs).fs out content mode cls
    hroot₂ (by rw [hd, huser]; exact hsearch) (by rw [hp]; exact hfile)
    (by rw [huser]; exact hread) hmark
  rw [hsecond]
  exact ⟨rfl, rfl, rfl⟩

/-- C10, on sample repositories owned by the installing user. With a
writable foreign hook, the first run backs it up and appends the hook body,
and the second run changes nothing (the hook file and the backup made at
time 1000 are as the first run left them, and no backup appears for time
2000). With no hook, the first run writes the hook body with the bits 755 and
the second run changes nothing. -/
theorem installHook_second_run_unchanged_witness :
    ((installHook (sampleInstallEnv 1000) (foreignHookFs 0o755)).outcome =
        InstallOutcome.returned ∧
      (installHook (sampleInstallEnv 2000)
        (installHook (sampleInstallEnv 1000) (foreignHookFs 0o755)).fs).fs =
      (installHook (sampleInstallEnv 1000) (foreignHookFs 0o755)).fs ∧
    (installHook (sampleInstallEnv 1000) (foreignHookFs 0o755)).fs
        "/repo/.git/hooks/pre-commit" =
      some (FsNode.file ("#!/bin/sh\nnpm test\n" ++ ("\n" ++ HOOK_SCRIPT)) 0o755
        PermClass.owner) ∧
    (installHook (sampleInstallEnv 1000) (foreignHookFs 0o755)).fs
        "/repo/.git/hooks/pre-commit.backup-1000" =
      some (FsNode.file "#!/bin/sh\nnpm test\n" 0o755 PermClass.owner) ∧
    (installHook (sampleInstallEnv 2000)
        (installHook (sampleInstallEnv 1000) (foreignHookFs 0o755)).fs).fs
        "/repo/.git/hooks/pre-commit.backup-2000" = none) ∧
    ((installHook (sampleInstallEnv 1000) noHookFs).outcome = InstallOutcome.returned ∧
      (installHook (sampleInstallEnv 2000)
        (installHook (sampleInstallEnv 1000) noHookFs).fs).fs =
      (installHook (sampleInstallEnv 1000) noHookFs).fs ∧
    (installHook (sampleInstallEnv 1000) noHookFs).fs "/repo/.git/hooks/pre-commit" =
      some (FsNode.file HOOK_SCRIPT 0o755 PermClass.owner)) :=
  ⟨⟨by decide,
    (installHook_second_run_unchanged (sampleInstallEnv 1000) (sampleInstallEnv 2000)
      (foreignHookFs 0o755) "/repo" (by decide) (by decide) rfl rfl (by decide)).2.2,
    by decide, by decide, by decide⟩,
   ⟨by decide,
    (installHook_second_run_unchanged (sampleInstallEnv 1000) (sampleInstallEnv 2000)
      noHookFs "/repo" (by decide) (by decide) rfl rfl (by decide)).2.2,
    by decide⟩⟩

end AutoFormatStaged
